import Mathlib

/-!
The proximity graph of particles-canvas (`src/main.js`)

A shallow embedding of the classes `Point` and `Graph` of `src/main.js`.

* JavaScript objects have identity and are mutated in place, so a point is a
  reference (`Ref`) into an object store (`Heap`); the array `this.points` is a
  list of references, and the same object may occur in it more than once.
* JavaScript arrays created by `new Array(n)` have empty slots, which read as
  `undefined`; an array is a list of optional values (`JsArray`), `none` being
  an empty slot.
* A write `this.connections[o][i] = v` throws a `TypeError` when
  `this.connections[o]` is `undefined`; operations that can throw return an
  `Option`, `none` being the thrown error.
* `Math.cos`, `Math.sin` and `+` on numbers are parameters (`JsMath`), and so
  is the rest of the arithmetic of the demo's predicate (`JsCompare`); the
  examples of the first sections run them on integers, the statements about
  distances and displacements on a model of IEEE 754 doubles (`Dbl`).
-/

namespace ParticlesCanvas

/-! ## JavaScript arrays -/

/-- A JavaScript array whose slots may be empty: `none` is an empty slot. -/
abbrev JsArray (β : Type) := List (Option β)

/-- The array `new Array(n)`: `n` empty slots. -/
def JsArray.newArray {β : Type} (n : Nat) : JsArray β := List.replicate n none

/-- The read `a[i]`: `none` stands for `undefined` (an empty slot, or an index
past the end). -/
def JsArray.read {β : Type} (a : JsArray β) (i : Nat) : Option β :=
  match a[i]? with
  | some (some v) => some v
  | _ => none

/-- The write `a[i] = v`: it fills slot `i`, and a write past the end first
extends the array with empty slots. -/
def JsArray.write {β : Type} (a : JsArray β) (i : Nat) (v : β) : JsArray β :=
  if i < a.length then a.set i (some v)
  else a ++ List.replicate (i - a.length) none ++ [some v]

/-- The loop `arr.forEach((el, index) => ...)` with a callback that cannot
throw, started at index `i`; the callback transforms the state. -/
def forEachFrom {σ α : Type} (f : σ → α → Nat → σ) : List α → Nat → σ → σ
  | [], _, s => s
  | a :: as, i, s => forEachFrom f as (i + 1) (f s a i)

/-- The loop `arr.forEach((el, index) => ...)`, callback cannot throw. -/
def forEach {σ α : Type} (f : σ → α → Nat → σ) (arr : List α) (s : σ) : σ :=
  forEachFrom f arr 0 s

/-- The loop `arr.forEach((el, index) => ...)` with a callback that may throw,
started at index `i`: the first throw ends the loop. -/
def tryForEachFrom {σ α : Type} (f : σ → α → Nat → Option σ) : List α → Nat → σ → Option σ
  | [], _, s => some s
  | a :: as, i, s =>
    match f s a i with
    | none => none
    | some s1 => tryForEachFrom f as (i + 1) s1

/-- The loop `arr.forEach((el, index) => ...)`, callback may throw. -/
def tryForEach {σ α : Type} (f : σ → α → Nat → Option σ) (arr : List α) (s : σ) : Option σ :=
  tryForEachFrom f arr 0 s

/-! ## Point -/

/-- The arithmetic `Point.move` uses: `+`, `Math.cos` and `Math.sin` on
JavaScript numbers. -/
structure JsMath (α : Type) where
  add : α → α → α
  cos : α → α
  sin : α → α

/-- The fields of a `Point` object. -/
structure Point (α : Type) where
  x : α
  y : α
  angle : α
  velocity : α

/-- `Point.move()`: `x = x + Math.cos(angle)`, `y = y + Math.sin(angle)`. -/
def Point.move {α : Type} (M : JsMath α) (p : Point α) : Point α :=
  { p with x := M.add p.x (M.cos p.angle), y := M.add p.y (M.sin p.angle) }

/-! ## Graph -/

/-- A reference to a `Point` object; `!==` on points compares references. -/
abbrev Ref := Nat

/-- The object store: the current fields of every point object. -/
abbrev Heap (α : Type) := Ref → Point α

/-- The store after the object `r` got the fields `p`. -/
def Heap.set {α : Type} (h : Heap α) (r : Ref) (p : Point α) : Heap α :=
  fun q => if q = r then p else h q

/-- The connectivity matrix `this.connections`: an array of rows. -/
abbrev Matrix := JsArray (JsArray Bool)

/-- The value read at `m[i][j]`, `none` when the row or the slot is unset. -/
def Matrix.entry (m : Matrix) (i j : Nat) : Option Bool :=
  match m.read i with
  | none => none
  | some row => row.read j

/-- A `Graph` object together with the store its point references live in.
A connection predicate receives two point objects; it may read their current
fields (through the store) and compare their identities. -/
structure Graph (α : Type) where
  heap : Heap α
  points : List Ref
  connectionFn : Heap α → Ref → Ref → Bool
  connections : Matrix

/-- `Graph.initConnections()`. -/
def Graph.initConnections {α : Type} (g : Graph α) : Graph α :=
  let points := g.points
  if points.length ≠ 0 then
    forEach (fun (s : Graph α) _ i =>
        { s with connections := s.connections.write i (JsArray.newArray points.length) })
      points { g with connections := JsArray.newArray points.length }
  else
    { g with connections := [] }

/-- The assignment `this.connections[outerIndex][innerIndex] = hasConnection`:
it throws when the row `this.connections[outerIndex]` is `undefined`. -/
def Graph.setConnection {α : Type} (g : Graph α) (outerIndex innerIndex : Nat)
    (hasConnection : Bool) : Option (Graph α) :=
  match g.connections.read outerIndex with
  | none => none
  | some row =>
    some { g with connections := g.connections.write outerIndex (row.write innerIndex hasConnection) }

/-- `Graph.calculateConnections()`. -/
def Graph.calculateConnections {α : Type} (g : Graph α) : Option (Graph α) :=
  let points := g.points
  if points.length > 1 then
    tryForEach (fun (s : Graph α) a outerIndex =>
        let innerList := points.take (outerIndex + 1)
        tryForEach (fun (s : Graph α) b innerIndex =>
            let hasConnection :=
              if outerIndex ≠ innerIndex then s.connectionFn s.heap a b else false
            s.setConnection outerIndex innerIndex hasConnection)
          innerList s)
      points g
  else
    some g

/-- The constructor `new Graph({ points, connectionFn })`; an absent option is
`none`. -/
def Graph.new {α : Type} (heap : Heap α) (points : Option (List Ref))
    (connectionFn : Option (Heap α → Ref → Ref → Bool)) : Option (Graph α) :=
  let defaultConnectionFn : Heap α → Ref → Ref → Bool := fun _ _ _ => true
  let g : Graph α :=
    { heap := heap
      points := points.getD []
      connectionFn := connectionFn.getD defaultConnectionFn
      connections := [] }
  g.initConnections.calculateConnections

/-- `Graph.addPoint(point)`. -/
def Graph.addPoint {α : Type} (g : Graph α) (point : Ref) : Option (Graph α) :=
  ({ g with points := g.points ++ [point] }).initConnections.calculateConnections

/-- `Graph.removePoint(point)`. -/
def Graph.removePoint {α : Type} (g : Graph α) (point : Ref) : Option (Graph α) :=
  ({ g with points := g.points.filter (fun el => point != el) }).initConnections.calculateConnections

/-- `Graph.getPoints()`. -/
def Graph.getPoints {α : Type} (g : Graph α) : List Ref := g.points

/-- `Graph.getConnections()`. -/
def Graph.getConnections {α : Type} (g : Graph α) : Matrix := g.connections

/-- `Graph.move()`: every element of `this.points` gets one `move()` call, then
the matrix is recomputed in place. -/
def Graph.move {α : Type} (M : JsMath α) (g : Graph α) : Option (Graph α) :=
  (forEach (fun (s : Graph α) point _ =>
      { s with heap := s.heap.set point (Point.move M (s.heap point)) })
    g.points g).calculateConnections

/-- `Graph.removePointsByCriteria(criteriaFn)`: the loop runs over the array
that `this.points` held at the call, while `removePoint` replaces
`this.points`. The criteria receives a point object and may read its fields. -/
def Graph.removePointsByCriteria {α : Type} (g : Graph α) (criteriaFn : Heap α → Ref → Bool) :
    Option (Graph α) :=
  match tryForEach (fun (s : Graph α) el _ =>
      if !criteriaFn s.heap el then s.removePoint el else some s) g.points g with
  | none => none
  | some g1 => g1.initConnections.calculateConnections

/-! ## Shape and content of the matrix -/

/-- The matrix has `n` rows, and every row is an array of `n` slots. -/
def Matrix.Square (m : Matrix) (n : Nat) : Prop :=
  m.length = n ∧ ∀ r ∈ m, r.map List.length = some n

instance (m : Matrix) (n : Nat) : Decidable (Matrix.Square m n) := by
  unfold Matrix.Square; infer_instance

/-- The graph `g'` has the store, the points and the predicate of `g`. -/
def Graph.Frame {α : Type} (g g' : Graph α) : Prop :=
  g'.heap = g.heap ∧ g'.points = g.points ∧ g'.connectionFn = g.connectionFn

/-- The value `initConnections` followed by `calculateConnections` leaves in
the slot `[x][y]`: with at least two points the slots on and below the
diagonal are written, every other slot stays unset. -/
def Graph.expected {α : Type} (g : Graph α) (x y : Nat) : Option Bool :=
  if 1 < g.points.length ∧ x < g.points.length ∧ y ≤ x then
    some (if x ≠ y then g.connectionFn g.heap (g.points[x]?.getD 0) (g.points[y]?.getD 0)
      else false)
  else none

/-- The matrix is square of side `points.length` and every slot holds what a
reinitialisation and recomputation on the current points would leave. -/
def Graph.Canonical {α : Type} (g : Graph α) : Prop :=
  g.connections.Square g.points.length ∧
    ∀ x y, Matrix.entry g.connections x y = g.expected x y

/-- The states reachable from the constructor (with or without initial points
and predicate) by `addPoint`, `removePoint`, `removePointsByCriteria` and
`move`. -/
inductive Reachable {α : Type} (M : JsMath α) : Graph α → Prop
  | new (heap : Heap α) (points : Option (List Ref))
      (connectionFn : Option (Heap α → Ref → Ref → Bool)) (g : Graph α) :
      Graph.new heap points connectionFn = some g → Reachable M g
  | addPoint (g : Graph α) (point : Ref) (g' : Graph α) :
      Reachable M g → g.addPoint point = some g' → Reachable M g'
  | removePoint (g : Graph α) (point : Ref) (g' : Graph α) :
      Reachable M g → g.removePoint point = some g' → Reachable M g'
  | removePointsByCriteria (g : Graph α) (criteriaFn : Heap α → Ref → Bool) (g' : Graph α) :
      Reachable M g → g.removePointsByCriteria criteriaFn = some g' → Reachable M g'
  | move (g : Graph α) (g' : Graph α) :
      Reachable M g → g.move M = some g' → Reachable M g'

/-! ## Concrete graphs

The points of the examples have integer coordinates and heading 0. -/

/-- Arithmetic on integers for points of heading 0: `Math.cos(0)` is 1 and
`Math.sin(0)` is 0. -/
def exampleMath : JsMath Int :=
  { add := fun a b => a + b, cos := fun _ => 1, sin := fun _ => 0 }

/-- The store of the examples: the object `r` is the point
`(100 * r, 0)` with heading 0 and velocity 0, so the objects 0, 1 and 5 are
the points A = (0,0), B = (100,0) and C = (500,0). -/
def exampleHeap : Heap Int :=
  fun r => { x := 100 * (r : Int), y := 0, angle := 0, velocity := 0 }

/-- A connection predicate on integer points: the squared distance is below
the square of 200. -/
def exampleFn : Heap Int → Ref → Ref → Bool :=
  fun h a b => decide (((h b).x - (h a).x) ^ 2 + ((h b).y - (h a).y) ^ 2 < 200 ^ 2)

/-- The graph `new Graph({ points: [A, B], connectionFn })`. -/
def graphAB : Graph Int :=
  { heap := exampleHeap
    points := [0, 1]
    connectionFn := exampleFn
    connections := [some [some false, none], some [some true, some false]] }

/-- The graph `graphAB` after `addPoint(C)`. -/
def graphABC : Graph Int :=
  { heap := exampleHeap
    points := [0, 1, 5]
    connectionFn := exampleFn
    connections :=
      [some [some false, none, none], some [some true, some false, none],
        some [some false, some false, some false]] }

/-- The graph `new Graph({ points: [A] })`. -/
def graphA : Graph Int :=
  { heap := exampleHeap
    points := [0]
    connectionFn := fun _ _ _ => true
    connections := [some [none]] }

/-- A graph of the points A and B with the constantly false predicate, its
matrix as `initConnections` leaves it. -/
def graphFresh : Graph Int :=
  { heap := exampleHeap
    points := [0, 1]
    connectionFn := fun _ _ _ => false
    connections := [some [none, none], some [none, none]] }

/-- The graph `new Graph({ points: [A, B], connectionFn: () => false })`. -/
def graphNone : Graph Int :=
  { heap := exampleHeap
    points := [0, 1]
    connectionFn := fun _ _ _ => false
    connections := [some [some false, none], some [some false, some false]] }

/-- The graph `new Graph({ points: [A, A] })`: the same object twice. -/
def graphTwice : Graph Int :=
  { heap := exampleHeap
    points := [0, 0]
    connectionFn := fun _ _ _ => true
    connections := [some [some false, none], some [some true, some false]] }

/-- The graph `new Graph({ connectionFn })`: no points. -/
def graphEmpty : Graph Int :=
  { heap := exampleHeap
    points := []
    connectionFn := exampleFn
    connections := [] }

/-! ## The bulk removal the design notes describe -/

/-- The reimplementation of bulk removal described by the design notes:
filter the point collection once by the criteria, then rebuild the matrix
once (one `initConnections`, one `calculateConnections`). -/
def Graph.filterOnceRebuildOnce {α : Type} (g : Graph α) (criteriaFn : Heap α → Ref → Bool) :
    Option (Graph α) :=
  ({ g with points := g.points.filter (criteriaFn g.heap) }).initConnections.calculateConnections

/-! ## The recomputation with a record of its calls and writes -/

/-- One evaluation `this.connectionFn(a, b)` made by `calculateConnections`,
with the indices of the loops at that moment. -/
structure Call where
  outerIndex : Nat
  innerIndex : Nat
  a : Ref
  b : Ref
  deriving DecidableEq

/-- One assignment `this.connections[outerIndex][innerIndex] = ...` made by
`calculateConnections`: its target, the number of rows of the matrix and the
length of the row `this.connections[outerIndex]` just before the assignment
(`none` when that row is `undefined`). -/
structure Write where
  outerIndex : Nat
  innerIndex : Nat
  rows : Nat
  rowLength : Option Nat
  deriving DecidableEq

/-- The write targets an existing row and a slot within its length. -/
def Write.InBounds (w : Write) : Prop :=
  w.outerIndex < w.rows ∧ ∃ len, w.rowLength = some len ∧ w.innerIndex < len

/-- The calls and writes of a run, in the order they happen. -/
structure Trace where
  calls : List Call
  writes : List Write

/-- The assignment `this.connections[outerIndex][innerIndex] = hasConnection`
of `Graph.setConnection`, recorded in the trace. -/
def Graph.setConnectionTraced {α : Type} (t : Graph α × Trace) (outerIndex innerIndex : Nat)
    (hasConnection : Bool) : Option (Graph α × Trace) :=
  match t.1.setConnection outerIndex innerIndex hasConnection with
  | none => none
  | some g' =>
    some (g', { t.2 with
      writes := t.2.writes ++
        [{ outerIndex := outerIndex, innerIndex := innerIndex,
           rows := t.1.connections.length,
           rowLength := (t.1.connections.read outerIndex).map List.length }] })

/-- `Graph.calculateConnections()` with every call of the predicate and every
write into the matrix recorded: the same loops, the state paired with a trace
that starts empty. -/
def Graph.calculateConnectionsTraced {α : Type} (g : Graph α) : Option (Graph α × Trace) :=
  let points := g.points
  if points.length > 1 then
    tryForEach (fun (t : Graph α × Trace) a outerIndex =>
        let innerList := points.take (outerIndex + 1)
        tryForEach (fun (t : Graph α × Trace) b innerIndex =>
            if outerIndex ≠ innerIndex then
              Graph.setConnectionTraced
                (t.1, { t.2 with
                  calls := t.2.calls ++
                    [{ outerIndex := outerIndex, innerIndex := innerIndex, a := a, b := b }] })
                outerIndex innerIndex (t.1.connectionFn t.1.heap a b)
            else
              Graph.setConnectionTraced t outerIndex innerIndex false)
          innerList t)
      points (g, { calls := [], writes := [] })
  else
    some (g, { calls := [], writes := [] })

/-- `Graph.move()` with the recomputation it ends with recorded. -/
def Graph.moveTraced {α : Type} (M : JsMath α) (g : Graph α) : Option (Graph α × Trace) :=
  (forEach (fun (s : Graph α) point _ =>
      { s with heap := s.heap.set point (Point.move M (s.heap point)) })
    g.points g).calculateConnectionsTraced

/-! ## The demo's connection predicate -/

/-- The constant `DISTANCE_BETWEEN_VERTICES`. -/
def DISTANCE_BETWEEN_VERTICES : Nat := 200

/-- The arithmetic the demo's connection predicate uses besides `+`: `-`,
`Math.pow`, `Math.sqrt`, `<` and number literals. -/
structure JsCompare (α : Type) where
  sub : α → α → α
  pow : α → α → α
  sqrt : α → α
  lt : α → α → Bool
  lit : Nat → α

/-- The `connectionFn` the demo passes to its graph:
`Math.sqrt(Math.pow(b.x - a.x, 2) + Math.pow(b.y - a.y, 2)) < DISTANCE_BETWEEN_VERTICES`. -/
def demoConnectionFn {α : Type} (M : JsMath α) (N : JsCompare α) : Heap α → Ref → Ref → Bool :=
  fun h a b =>
    let distance :=
      N.sqrt (M.add (N.pow (N.sub (h b).x (h a).x) (N.lit 2))
        (N.pow (N.sub (h b).y (h a).y) (N.lit 2)))
    N.lt distance (N.lit DISTANCE_BETWEEN_VERTICES)

/-! ## Double-precision numbers

JavaScript numbers are IEEE 754 binary64 values. The finite ones are modelled
exactly, as an integer times a power of two; `+`, `-` and `Math.sqrt` return
the exact result rounded to the nearest double, ties to the even significand,
as IEEE 754 requires. ECMAScript leaves the accuracy of `Math.pow`, `Math.cos`
and `Math.sin` to the implementation: `Math.pow` is modelled as correctly
rounded for an exponent that is a natural number, `Math.cos` and `Math.sin`
are parameters. -/

/-- A finite double `mant * 2 ^ expo` in lowest terms: `mant` is odd, or the
number is zero and both fields are 0. Infinities, NaN, the sign of zero and
the ends of the exponent range (overflow, subnormal numbers) are not
modelled. -/
structure Dbl where
  mant : Int
  expo : Int
  deriving DecidableEq

/-- The number of binary digits of `n`, counted up to `fuel`. -/
def Dbl.bitsFuel : Nat → Nat → Nat
  | 0, _ => 0
  | fuel + 1, n => if n = 0 then 0 else Dbl.bitsFuel fuel (n / 2) + 1

/-- The number of binary digits of `n`: 0 for 0, 3 for 4 to 7. -/
def Dbl.bits (n : Nat) : Nat := Dbl.bitsFuel n n

/-- The number of factors 2 of `n`, counted up to `fuel`. -/
def Dbl.twos : Nat → Nat → Nat
  | 0, _ => 0
  | fuel + 1, n => if n % 2 = 0 ∧ n ≠ 0 then Dbl.twos fuel (n / 2) + 1 else 0

/-- The number `m * 2 ^ e` in lowest terms. -/
def Dbl.norm (m e : Int) : Dbl :=
  if m = 0 then { mant := 0, expo := 0 }
  else
    let t := Dbl.twos m.natAbs m.natAbs
    { mant := m.sign * ((m.natAbs / 2 ^ t : Nat) : Int), expo := e + (t : Int) }

/-- The double nearest to `m * 2 ^ e`: 53 significant bits, ties to the even
significand. -/
def Dbl.round (m e : Int) : Dbl :=
  let n := m.natAbs
  if n < 2 ^ 53 then Dbl.norm m e
  else
    let shift := Dbl.bits n - 53
    let q := n / 2 ^ shift
    let r := n % 2 ^ shift
    let half := 2 ^ (shift - 1)
    let q1 := if r < half then q else if half < r then q + 1 else if q % 2 = 0 then q else q + 1
    Dbl.norm (m.sign * (q1 : Int)) (e + (shift : Int))

/-- The exact value of a double. -/
def Dbl.toRat (a : Dbl) : ℚ := (a.mant : ℚ) * (2 : ℚ) ^ a.expo

/-- The double nearest to the integer `n`; it is `n` itself when `n` is
between `-2 ^ 53` and `2 ^ 53`. -/
def Dbl.ofInt (n : Int) : Dbl := Dbl.round n 0

/-- The double `a` is the integer `n`, held with an exponent that is not
negative. -/
def Dbl.IsInt (a : Dbl) (n : Int) : Prop :=
  ∃ t : Nat, a.expo = (t : Int) ∧ a.mant * 2 ^ t = n

/-- The double a number literal `n` denotes. -/
def Dbl.lit (n : Nat) : Dbl := Dbl.ofInt (n : Int)

/-- The double a decimal literal of value `n / d` denotes (`d` not 0): the
nearest double. The quotient is taken with more than 64 bits, its last bit
recording whether the division left a remainder. -/
def Dbl.ofRatio (n d : Nat) : Dbl :=
  let s := 64 + Dbl.bits d
  let q := n * 2 ^ s / d
  let sticky := if n * 2 ^ s % d = 0 then 0 else 1
  Dbl.round ((2 * q + sticky : Nat) : Int) (-(s : Int) - 1)

/-- The sum `a + b`: the exact sum, rounded. -/
def Dbl.add (a b : Dbl) : Dbl :=
  let e := min a.expo b.expo
  Dbl.round (a.mant * 2 ^ (a.expo - e).toNat + b.mant * 2 ^ (b.expo - e).toNat) e

/-- The difference `a - b`: the exact difference, rounded. -/
def Dbl.sub (a b : Dbl) : Dbl :=
  let e := min a.expo b.expo
  Dbl.round (a.mant * 2 ^ (a.expo - e).toNat - b.mant * 2 ^ (b.expo - e).toNat) e

/-- The comparison `a < b`, which is exact. -/
def Dbl.lt (a b : Dbl) : Bool :=
  let e := min a.expo b.expo
  decide (a.mant * 2 ^ (a.expo - e).toNat < b.mant * 2 ^ (b.expo - e).toNat)

/-- `Math.pow(a, k)` for an exponent `k` that is a natural number, the only
kind the demo uses (`k = 2`): the exact power, rounded. Other exponents are
not modelled. -/
def Dbl.pow (a k : Dbl) : Dbl :=
  if 0 ≤ k.mant ∧ 0 ≤ k.expo then
    let n := k.mant.toNat * 2 ^ k.expo.toNat
    Dbl.round (a.mant ^ n) (a.expo * (n : Int))
  else { mant := 0, expo := 0 }

/-- The integer square root of `n`, found bit by bit from bit `bits - 1`
down. -/
def Dbl.isqrtBits : Nat → Nat → Nat → Nat
  | 0, _, acc => acc
  | bits + 1, n, acc =>
    if (acc + 2 ^ bits) * (acc + 2 ^ bits) ≤ n then Dbl.isqrtBits bits n (acc + 2 ^ bits)
    else Dbl.isqrtBits bits n acc

/-- The integer square root of `n`. -/
def Dbl.isqrt (n : Nat) : Nat := Dbl.isqrtBits (Dbl.bits n / 2 + 1) n 0

/-- `Math.sqrt(a)` for `a` not negative: the exact square root, rounded. The
root is taken with more than 64 bits, its last bit recording whether it is
inexact. The square root of a negative number (NaN) is not modelled; the demo
takes the root of a sum of two squares. -/
def Dbl.sqrt (a : Dbl) : Dbl :=
  if a.mant ≤ 0 then { mant := 0, expo := 0 }
  else
    let m2 := if a.expo % 2 = 0 then a.mant.toNat else 2 * a.mant.toNat
    let e2 := if a.expo % 2 = 0 then a.expo else a.expo - 1
    let f := Dbl.isqrt (m2 * 2 ^ 128)
    let sticky := if f * f = m2 * 2 ^ 128 then 0 else 1
    Dbl.round ((2 * f + sticky : Nat) : Int) ((e2 - 128) / 2 - 1)

/-- The arithmetic of `Point.move` on doubles. `Math.cos` and `Math.sin` are
parameters: the functions from a heading to the double the implementation
returns for it. -/
def Dbl.math (cos sin : Dbl → Dbl) : JsMath Dbl :=
  { add := Dbl.add, cos := cos, sin := sin }

/-- `Math.cos` at heading 0, the heading of every point of the examples:
`Math.cos(0)` is 1, a value ECMAScript fixes exactly. -/
def Dbl.cosZero : Dbl → Dbl := fun _ => Dbl.lit 1

/-- `Math.sin` at heading 0, the heading of every point of the examples:
`Math.sin(0)` is 0, a value ECMAScript fixes exactly. -/
def Dbl.sinZero : Dbl → Dbl := fun _ => Dbl.lit 0

/-- The arithmetic of doubles for points of heading 0. -/
def Dbl.mathZero : JsMath Dbl := Dbl.math Dbl.cosZero Dbl.sinZero

/-- The arithmetic of the demo's predicate on doubles. -/
def Dbl.compare : JsCompare Dbl :=
  { sub := Dbl.sub, pow := Dbl.pow, sqrt := Dbl.sqrt, lt := Dbl.lt, lit := Dbl.lit }

/-! ## The demo's predicate on doubles -/

/-- The demo's predicate with the arithmetic of doubles. -/
def demoFn : Heap Dbl → Ref → Ref → Bool := demoConnectionFn Dbl.mathZero Dbl.compare

/-- The store of the scenario: object `r` is the point `(100 * r, 0)` with
heading 0 and velocity 0, so the objects 0, 1 and 5 are A = (0,0), B = (100,0)
and C = (500,0). -/
def demoHeap : Heap Dbl :=
  fun r => { x := Dbl.lit (100 * r), y := Dbl.lit 0, angle := Dbl.lit 0, velocity := Dbl.lit 0 }

/-- The scenario: a graph built with the demo's predicate, then the points
A, B, C added in that order. -/
def demoScenario : Option (Graph Dbl) :=
  match Graph.new demoHeap none (some demoFn) with
  | none => none
  | some g0 =>
    match g0.addPoint 0 with
    | none => none
    | some g1 =>
      match g1.addPoint 1 with
      | none => none
      | some g2 => g2.addPoint 5

/-- The graph the scenario ends with. -/
def graphDemoABC : Graph Dbl :=
  { heap := demoHeap
    points := [0, 1, 5]
    connectionFn := demoFn
    connections :=
      [some [some false, none, none], some [some true, some false, none],
        some [some false, some false, some false]] }

/-- A store with two points 200.1 - 0.1 apart as written: object 0 is at
`(0.1, 0)`, every other object at `(200.1, 0)`; the coordinates are the doubles
the literals `0.1` and `200.1` denote. -/
def nearHeap : Heap Dbl :=
  fun r =>
    { x := if r = 0 then Dbl.ofRatio 1 10 else Dbl.ofRatio 2001 10
      y := Dbl.lit 0, angle := Dbl.lit 0, velocity := Dbl.lit 0 }

/-- The graph `new Graph({ points: [p, q], connectionFn })` for `p` at
`(0.1, 0)` and `q` at `(200.1, 0)`. -/
def graphNear : Graph Dbl :=
  { heap := nearHeap
    points := [0, 1]
    connectionFn := demoFn
    connections := [some [some false, none], some [some false, some false]] }

/-- A point at `(2 ^ 53, 0)` with heading 0. -/
def farPoint : Point Dbl :=
  { x := Dbl.lit (2 ^ 53), y := Dbl.lit 0, angle := Dbl.lit 0, velocity := Dbl.lit 0 }

/-! ## Arrays and matrices -/

theorem JsArray.length_write_lt {β : Type} (a : JsArray β) (i : Nat) (v : β) (h : i < a.length) :
    (a.write i v).length = a.length := by
  simp [JsArray.write, h]

theorem JsArray.read_write_lt {β : Type} (a : JsArray β) (i j : Nat) (v : β) (h : i < a.length) :
    (a.write i v).read j = if j = i then some v else a.read j := by
  unfold JsArray.write JsArray.read
  rw [if_pos h, List.getElem?_set]
  by_cases hji : j = i
  · subst hji; simp [h]
  · have : ¬ i = j := fun e => hji e.symm
    simp [hji, this]

theorem JsArray.read_newArray {β : Type} (n i : Nat) : (JsArray.newArray n : JsArray β).read i = none := by
  unfold JsArray.newArray JsArray.read
  rw [List.getElem?_replicate]
  split_ifs <;> rfl

theorem JsArray.read_eq_some_lt {β : Type} (a : JsArray β) (i : Nat) (v : β) (h : a.read i = some v) :
    i < a.length := by
  unfold JsArray.read at h
  by_contra hlt
  rw [List.getElem?_eq_none (Nat.le_of_not_lt hlt)] at h
  simp at h

theorem Matrix.Square.read {m : Matrix} {n i : Nat} (h : m.Square n) (hi : i < n) :
    ∃ row, JsArray.read m i = some row ∧ row.length = n := by
  obtain ⟨hl, hr⟩ := h
  have hi2 : i < m.length := hl ▸ hi
  have hmem : m[i] ∈ m := List.getElem_mem hi2
  have := hr _ hmem
  cases hmi : m[i] with
  | none => rw [hmi] at this; simp at this
  | some row =>
    rw [hmi] at this
    refine ⟨row, ?_, by simpa using this⟩
    unfold JsArray.read
    rw [List.getElem?_eq_getElem hi2, hmi]

theorem Matrix.Square.write {m : Matrix} {n i : Nat} (h : m.Square n) (hi : i < n)
    (row : JsArray Bool) (hrow : row.length = n) : Matrix.Square (JsArray.write m i row) n := by
  obtain ⟨hl, hr⟩ := h
  have hi2 : i < m.length := hl ▸ hi
  refine ⟨by rw [JsArray.length_write_lt _ _ _ hi2]; exact hl, ?_⟩
  intro r hrmem
  unfold JsArray.write at hrmem
  rw [if_pos hi2] at hrmem
  rcases List.mem_or_eq_of_mem_set hrmem with h1 | h1
  · exact hr r h1
  · subst h1; simp [hrow]

/-! ## The recomputation loops -/

theorem Graph.Frame.refl {α : Type} (g : Graph α) : g.Frame g := ⟨rfl, rfl, rfl⟩

theorem Graph.Frame.trans {α : Type} {g1 g2 g3 : Graph α} (h12 : g1.Frame g2) (h23 : g2.Frame g3) :
    g1.Frame g3 :=
  ⟨h23.1.trans h12.1, h23.2.1.trans h12.2.1, h23.2.2.trans h12.2.2⟩

theorem Graph.setConnection_spec {α : Type} (g : Graph α) (n o i : Nat) (v : Bool)
    (hsq : g.connections.Square n) (ho : o < n) (hi : i < n) :
    ∃ g', g.setConnection o i v = some g' ∧ g.Frame g' ∧ g'.connections.Square n ∧
      ∀ x y, Matrix.entry g'.connections x y =
        if x = o ∧ y = i then some v else Matrix.entry g.connections x y := by
  obtain ⟨row, hrow, hlen⟩ := hsq.read ho
  have ho2 : o < g.connections.length := hsq.1 ▸ ho
  have hi2 : i < row.length := hlen ▸ hi
  refine ⟨{ g with connections := g.connections.write o (row.write i v) }, ?_, ⟨rfl, rfl, rfl⟩, ?_, ?_⟩
  · unfold Graph.setConnection; rw [hrow]
  · exact hsq.write ho _ (by rw [JsArray.length_write_lt _ _ _ hi2]; exact hlen)
  · intro x y
    show Matrix.entry (JsArray.write g.connections o (row.write i v)) x y = _
    unfold Matrix.entry
    rw [JsArray.read_write_lt _ _ _ _ ho2]
    by_cases hx : x = o
    · subst hx
      rw [if_pos rfl, hrow]
      show JsArray.read (row.write i v) y = _
      rw [JsArray.read_write_lt _ _ _ _ hi2]
      by_cases hy : y = i <;> simp [hy]
    · simp [hx]

theorem Graph.inner_loop {α : Type} (n o : Nat) (a : Ref) (ho : o < n) (L : List Ref) :
    ∀ (k : Nat) (s : Graph α), s.connections.Square n → k + L.length ≤ n →
      ∃ s', tryForEachFrom (fun (s : Graph α) b innerIndex =>
              s.setConnection o innerIndex
                (if o ≠ innerIndex then s.connectionFn s.heap a b else false)) L k s = some s' ∧
        s.Frame s' ∧ s'.connections.Square n ∧
        ∀ x y, Matrix.entry s'.connections x y =
          if x = o ∧ k ≤ y ∧ y < k + L.length then
            some (if o ≠ y then s.connectionFn s.heap a (L[y - k]?.getD 0) else false)
          else Matrix.entry s.connections x y := by
  induction L with
  | nil =>
    intro k s hsq _
    refine ⟨s, rfl, Graph.Frame.refl s, hsq, ?_⟩
    intro x y
    have : ¬ (x = o ∧ k ≤ y ∧ y < k + ([] : List Ref).length) := by
      simp only [List.length_nil]; omega
    rw [if_neg this]
  | cons b L ih =>
    intro k s hsq hk
    simp only [List.length_cons] at hk
    obtain ⟨s1, h1, hf1, hsq1, he1⟩ :=
      Graph.setConnection_spec s n o k (if o ≠ k then s.connectionFn s.heap a b else false)
        hsq ho (by omega)
    obtain ⟨s2, h2, hf2, hsq2, he2⟩ := ih (k + 1) s1 hsq1 (by omega)
    refine ⟨s2, ?_, hf1.trans hf2, hsq2, ?_⟩
    · simp only [tryForEachFrom]
      rw [h1]
      exact h2
    · intro x y
      rw [he2, he1, hf1.1, hf1.2.2]
      simp only [List.length_cons]
      by_cases hx : x = o
      · by_cases hy : y = k
        · subst hy
          have e1 : ¬ (x = o ∧ y + 1 ≤ y ∧ y < y + 1 + L.length) := by omega
          have e2 : (x = o ∧ y ≤ y ∧ y < y + (L.length + 1)) := ⟨hx, le_refl _, by omega⟩
          rw [if_neg e1, if_pos e2, if_pos ⟨hx, rfl⟩]
          simp
        · by_cases hr : k + 1 ≤ y ∧ y < k + 1 + L.length
          · have e2 : (x = o ∧ k ≤ y ∧ y < k + (L.length + 1)) := ⟨hx, by omega, by omega⟩
            rw [if_pos ⟨hx, hr⟩, if_pos e2]
            have : y - k = (y - (k + 1)) + 1 := by omega
            rw [this, List.getElem?_cons_succ]
          · have e1 : ¬ (x = o ∧ k + 1 ≤ y ∧ y < k + 1 + L.length) := fun h => hr h.2
            have e2 : ¬ (x = o ∧ k ≤ y ∧ y < k + (L.length + 1)) := by omega
            have e3 : ¬ (x = o ∧ y = k) := fun h => hy h.2
            rw [if_neg e1, if_neg e2, if_neg e3]
      · have e1 : ¬ (x = o ∧ k + 1 ≤ y ∧ y < k + 1 + L.length) := fun h => hx h.1
        have e2 : ¬ (x = o ∧ k ≤ y ∧ y < k + (L.length + 1)) := fun h => hx h.1
        have e3 : ¬ (x = o ∧ y = k) := fun h => hx h.1
        rw [if_neg e1, if_neg e2, if_neg e3]

theorem Graph.outer_loop {α : Type} (points : List Ref) (n : Nat) (hn : points.length = n)
    (L : List Ref) :
    ∀ (k : Nat) (s : Graph α), points.drop k = L → s.connections.Square n →
      ∃ s', tryForEachFrom (fun (s : Graph α) a outerIndex =>
              tryForEach (fun (s : Graph α) b innerIndex =>
                  s.setConnection outerIndex innerIndex
                    (if outerIndex ≠ innerIndex then s.connectionFn s.heap a b else false))
                (points.take (outerIndex + 1)) s) L k s = some s' ∧
        s.Frame s' ∧ s'.connections.Square n ∧
        ∀ x y, Matrix.entry s'.connections x y =
          if k ≤ x ∧ x < n ∧ y ≤ x then
            some (if x ≠ y then s.connectionFn s.heap (points[x]?.getD 0) (points[y]?.getD 0)
              else false)
          else Matrix.entry s.connections x y := by
  induction L with
  | nil =>
    intro k s hdrop hsq
    refine ⟨s, rfl, Graph.Frame.refl s, hsq, ?_⟩
    intro x y
    have hk : n ≤ k := by
      rw [← hn]; exact List.drop_eq_nil_iff.mp hdrop
    have : ¬ (k ≤ x ∧ x < n ∧ y ≤ x) := by omega
    rw [if_neg this]
  | cons a L ih =>
    intro k s hdrop hsq
    have hk : k < n := by
      rw [← hn]
      by_contra hc
      rw [List.drop_eq_nil_iff.mpr (Nat.le_of_not_lt hc)] at hdrop
      exact List.noConfusion hdrop
    have hk2 : k < points.length := hn ▸ hk
    rw [List.drop_eq_getElem_cons hk2] at hdrop
    have ha : points[k] = a := (List.cons.inj hdrop).1
    have hL : points.drop (k + 1) = L := (List.cons.inj hdrop).2
    have hlen : (points.take (k + 1)).length = k + 1 := by
      rw [List.length_take]; omega
    obtain ⟨s1, h1, hf1, hsq1, he1⟩ :=
      Graph.inner_loop n k a hk (points.take (k + 1)) 0 s hsq (by rw [hlen]; omega)
    obtain ⟨s2, h2, hf2, hsq2, he2⟩ := ih (k + 1) s1 hL hsq1
    refine ⟨s2, ?_, hf1.trans hf2, hsq2, ?_⟩
    · simp only [tryForEachFrom]
      unfold tryForEach
      rw [h1]
      exact h2
    · intro x y
      rw [he2, he1, hf1.1, hf1.2.2, hlen]
      by_cases hx : x = k
      · subst hx
        have e1 : ¬ (x + 1 ≤ x ∧ x < n ∧ y ≤ x) := by omega
        rw [if_neg e1]
        by_cases hy : y ≤ x
        · have e2 : (x = x ∧ 0 ≤ y ∧ y < 0 + (x + 1)) := ⟨rfl, Nat.zero_le _, by omega⟩
          have e3 : (x ≤ x ∧ x < n ∧ y ≤ x) := ⟨le_refl _, hk, hy⟩
          rw [if_pos e2, if_pos e3]
          have t1 : (points.take (x + 1))[y - 0]? = points[y]? := by
            rw [Nat.sub_zero, List.getElem?_take_of_lt (by omega)]
          have t2 : points[x]?.getD 0 = a := by
            rw [List.getElem?_eq_getElem hk2, ha]; rfl
          rw [t1, t2]
        · have e2 : ¬ (x = x ∧ 0 ≤ y ∧ y < 0 + (x + 1)) := by omega
          have e3 : ¬ (x ≤ x ∧ x < n ∧ y ≤ x) := fun h => hy h.2.2
          rw [if_neg e2, if_neg e3]
      · have e2 : ¬ (x = k ∧ 0 ≤ y ∧ y < 0 + (k + 1)) := fun h => hx h.1
        rw [if_neg e2]
        by_cases hc : k + 1 ≤ x ∧ x < n ∧ y ≤ x
        · have e3 : (k ≤ x ∧ x < n ∧ y ≤ x) := ⟨by omega, hc.2.1, hc.2.2⟩
          rw [if_pos hc, if_pos e3]
        · have e3 : ¬ (k ≤ x ∧ x < n ∧ y ≤ x) := by omega
          rw [if_neg hc, if_neg e3]

/-- What one run of `calculateConnections` writes and what it leaves. -/
theorem Graph.calculateConnections_spec {α : Type} (g : Graph α)
    (hsq : g.connections.Square g.points.length) :
    ∃ g', g.calculateConnections = some g' ∧ g.Frame g' ∧
      g'.connections.Square g.points.length ∧
      ∀ x y, Matrix.entry g'.connections x y =
        if 1 < g.points.length ∧ x < g.points.length ∧ y ≤ x then
          some (if x ≠ y then g.connectionFn g.heap (g.points[x]?.getD 0) (g.points[y]?.getD 0)
            else false)
        else Matrix.entry g.connections x y := by
  by_cases hn : g.points.length > 1
  · obtain ⟨s', h, hf, hsq', he⟩ :=
      Graph.outer_loop g.points g.points.length rfl g.points 0 g (List.drop_zero _) hsq
    refine ⟨s', ?_, hf, hsq', ?_⟩
    · unfold Graph.calculateConnections
      simp only [if_pos hn]
      exact h
    · intro x y
      rw [he]
      by_cases hc : x < g.points.length ∧ y ≤ x
      · have e1 : (0 ≤ x ∧ x < g.points.length ∧ y ≤ x) := ⟨Nat.zero_le _, hc⟩
        have e2 : (1 < g.points.length ∧ x < g.points.length ∧ y ≤ x) := ⟨hn, hc⟩
        rw [if_pos e1, if_pos e2]
      · have e1 : ¬ (0 ≤ x ∧ x < g.points.length ∧ y ≤ x) := fun h => hc h.2
        have e2 : ¬ (1 < g.points.length ∧ x < g.points.length ∧ y ≤ x) := fun h => hc h.2
        rw [if_neg e1, if_neg e2]
  · refine ⟨g, ?_, Graph.Frame.refl g, hsq, ?_⟩
    · unfold Graph.calculateConnections
      simp only [if_neg hn]
    · intro x y
      have e2 : ¬ (1 < g.points.length ∧ x < g.points.length ∧ y ≤ x) := fun h => hn h.1
      rw [if_neg e2]

/-! ## Reinitialisation -/

theorem JsArray.getElem?_eq_read {β : Type} (a : JsArray β) (j : Nat) (h : j < a.length) :
    a[j]? = some (a.read j) := by
  unfold JsArray.read
  rw [List.getElem?_eq_getElem h]
  cases a[j] <;> rfl

theorem JsArray.ext_read {β : Type} (a b : JsArray β) (hl : a.length = b.length)
    (h : ∀ j, a.read j = b.read j) : a = b := by
  apply List.ext_getElem?
  intro j
  by_cases hj : j < a.length
  · rw [JsArray.getElem?_eq_read a j hj, JsArray.getElem?_eq_read b j (hl ▸ hj), h j]
  · rw [List.getElem?_eq_none (Nat.le_of_not_lt hj),
      List.getElem?_eq_none (hl ▸ Nat.le_of_not_lt hj)]

theorem Matrix.ext_entry (m m' : Matrix) (n : Nat) (h : m.Square n) (h' : m'.Square n)
    (he : ∀ x y, Matrix.entry m x y = Matrix.entry m' x y) : m = m' := by
  apply JsArray.ext_read m m' (h.1.trans h'.1.symm)
  intro i
  by_cases hi : i < n
  · obtain ⟨row, hr, hlen⟩ := h.read hi
    obtain ⟨row', hr', hlen'⟩ := h'.read hi
    rw [hr, hr']
    congr 1
    apply JsArray.ext_read row row' (hlen.trans hlen'.symm)
    intro j
    have := he i j
    unfold Matrix.entry at this
    rw [hr, hr'] at this
    exact this
  · have e1 : JsArray.read m i = none := by
      cases hm : JsArray.read m i with
      | none => rfl
      | some v => exact absurd (h.1 ▸ JsArray.read_eq_some_lt m i v hm) hi
    have e2 : JsArray.read m' i = none := by
      cases hm : JsArray.read m' i with
      | none => rfl
      | some v => exact absurd (h'.1 ▸ JsArray.read_eq_some_lt m' i v hm) hi
    rw [e1, e2]

theorem Graph.initConnections_loop {α : Type} (row : JsArray Bool) (L : List Ref) :
    ∀ (k : Nat) (s : Graph α),
      s.connections = List.replicate k (some row) ++ List.replicate L.length none →
      s.Frame (forEachFrom (fun (s : Graph α) _ i =>
          { s with connections := s.connections.write i row }) L k s) ∧
      (forEachFrom (fun (s : Graph α) _ i =>
          { s with connections := s.connections.write i row }) L k s).connections =
        List.replicate (k + L.length) (some row) := by
  induction L with
  | nil =>
    intro k s hs
    refine ⟨Graph.Frame.refl s, ?_⟩
    simpa using hs
  | cons a L ih =>
    intro k s hs
    have hstep : JsArray.write s.connections k row =
        List.replicate (k + 1) (some row) ++ List.replicate L.length none := by
      unfold JsArray.write
      rw [hs]
      have hk : k < (List.replicate k (some row) ++
          List.replicate (a :: L).length (none : Option (JsArray Bool))).length := by simp
      rw [if_pos hk, List.set_append_right _ _ (by simp)]
      rw [List.replicate_succ']
      simp [List.replicate_succ]
    obtain ⟨hf, hc⟩ := ih (k + 1) { s with connections := s.connections.write k row } hstep
    refine ⟨?_, ?_⟩
    · exact Graph.Frame.trans ⟨rfl, rfl, rfl⟩ hf
    · simp only [forEachFrom]
      rw [hc, List.length_cons]
      congr 1
      omega

theorem Graph.initConnections_spec {α : Type} (g : Graph α) :
    g.Frame g.initConnections ∧
      g.initConnections.connections =
        List.replicate g.points.length (some (List.replicate g.points.length none)) := by
  by_cases hn : g.points.length ≠ 0
  · have h := Graph.initConnections_loop (JsArray.newArray g.points.length) g.points 0
      { g with connections := JsArray.newArray g.points.length } (by simp [JsArray.newArray])
    unfold Graph.initConnections forEach
    simp only [if_pos hn]
    refine ⟨Graph.Frame.trans ⟨rfl, rfl, rfl⟩ h.1, ?_⟩
    rw [h.2, Nat.zero_add]
    rfl
  · unfold Graph.initConnections
    simp only [if_neg hn]
    refine ⟨⟨rfl, rfl, rfl⟩, ?_⟩
    have : g.points.length = 0 := by omega
    rw [this]
    rfl

theorem Graph.initConnections_square {α : Type} (g : Graph α) :
    g.initConnections.connections.Square g.points.length := by
  rw [(Graph.initConnections_spec g).2]
  refine ⟨List.length_replicate _ _, ?_⟩
  intro r hr
  rw [List.eq_of_mem_replicate hr]
  simp

theorem Graph.initConnections_entry {α : Type} (g : Graph α) (x y : Nat) :
    Matrix.entry g.initConnections.connections x y = none := by
  rw [(Graph.initConnections_spec g).2]
  unfold Matrix.entry JsArray.read
  rw [List.getElem?_replicate]
  by_cases hx : x < g.points.length
  · simp only [if_pos hx]
    rw [List.getElem?_replicate]
    split_ifs <;> rfl
  · simp only [if_neg hx]

/-- Reinitialising and recomputing always succeeds and gives the canonical
matrix of the points. -/
theorem Graph.reinit_spec {α : Type} (g : Graph α) :
    ∃ g', g.initConnections.calculateConnections = some g' ∧ g.Frame g' ∧ g'.Canonical := by
  have hf0 := (Graph.initConnections_spec g).1
  have hsq0 : g.initConnections.connections.Square g.initConnections.points.length := by
    rw [hf0.2.1]; exact Graph.initConnections_square g
  obtain ⟨g', h, hf, hsq, he⟩ := Graph.calculateConnections_spec g.initConnections hsq0
  have hfr := hf0.trans hf
  refine ⟨g', h, hfr, ?_, ?_⟩
  · rw [hfr.2.1]; rw [hf0.2.1] at hsq; exact hsq
  · intro x y
    rw [he, Graph.initConnections_entry]
    unfold Graph.expected
    rw [hfr.1, hfr.2.1, hfr.2.2, hf0.1, hf0.2.1, hf0.2.2]

/-! ## The operations -/

theorem Graph.new_spec {α : Type} (heap : Heap α) (points : Option (List Ref))
    (connectionFn : Option (Heap α → Ref → Ref → Bool)) :
    ∃ g, Graph.new heap points connectionFn = some g ∧ g.heap = heap ∧
      g.points = points.getD [] ∧
      g.connectionFn = connectionFn.getD (fun _ _ _ => true) ∧ g.Canonical := by
  obtain ⟨g, h, hf, hc⟩ := Graph.reinit_spec
    ({ heap := heap, points := points.getD [],
       connectionFn := connectionFn.getD (fun _ _ _ => true), connections := [] } : Graph α)
  exact ⟨g, h, hf.1, hf.2.1, hf.2.2, hc⟩

theorem Graph.addPoint_spec {α : Type} (g : Graph α) (point : Ref) :
    ∃ g', g.addPoint point = some g' ∧ g'.heap = g.heap ∧ g'.points = g.points ++ [point] ∧
      g'.connectionFn = g.connectionFn ∧ g'.Canonical := by
  obtain ⟨g', h, hf, hc⟩ := Graph.reinit_spec ({ g with points := g.points ++ [point] })
  exact ⟨g', h, hf.1, hf.2.1, hf.2.2, hc⟩

theorem Graph.removePoint_spec {α : Type} (g : Graph α) (point : Ref) :
    ∃ g', g.removePoint point = some g' ∧ g'.heap = g.heap ∧
      g'.points = g.points.filter (fun el => point != el) ∧
      g'.connectionFn = g.connectionFn ∧ g'.Canonical := by
  obtain ⟨g', h, hf, hc⟩ :=
    Graph.reinit_spec ({ g with points := g.points.filter (fun el => point != el) })
  exact ⟨g', h, hf.1, hf.2.1, hf.2.2, hc⟩

theorem Graph.move_loop {α : Type} (M : JsMath α) (L : List Ref) :
    ∀ (k : Nat) (s : Graph α),
      (forEachFrom (fun (s : Graph α) point _ =>
          { s with heap := s.heap.set point (Point.move M (s.heap point)) }) L k s).points
        = s.points ∧
      (forEachFrom (fun (s : Graph α) point _ =>
          { s with heap := s.heap.set point (Point.move M (s.heap point)) }) L k s).connectionFn
        = s.connectionFn ∧
      (forEachFrom (fun (s : Graph α) point _ =>
          { s with heap := s.heap.set point (Point.move M (s.heap point)) }) L k s).connections
        = s.connections ∧
      ∀ r, (forEachFrom (fun (s : Graph α) point _ =>
          { s with heap := s.heap.set point (Point.move M (s.heap point)) }) L k s).heap r
        = (Point.move M)^[L.count r] (s.heap r) := by
  induction L with
  | nil => intro k s; exact ⟨rfl, rfl, rfl, fun r => rfl⟩
  | cons a L ih =>
    intro k s
    obtain ⟨h1, h2, h3, h4⟩ :=
      ih (k + 1) { s with heap := s.heap.set a (Point.move M (s.heap a)) }
    refine ⟨h1, h2, h3, ?_⟩
    intro r
    simp only [forEachFrom]
    rw [h4 r]
    show (Point.move M)^[L.count r] (Heap.set s.heap a (Point.move M (s.heap a)) r) = _
    unfold Heap.set
    by_cases hr : r = a
    · subst hr
      rw [if_pos rfl, List.count_cons_self, Function.iterate_succ_apply]
    · rw [if_neg hr, List.count_cons_of_ne hr]

/-- What `move()` does to the store and to the matrix. -/
theorem Graph.move_spec {α : Type} (M : JsMath α) (g : Graph α)
    (hsq : g.connections.Square g.points.length) :
    ∃ g', g.move M = some g' ∧ g'.points = g.points ∧ g'.connectionFn = g.connectionFn ∧
      (∀ r, g'.heap r = (Point.move M)^[g.points.count r] (g.heap r)) ∧
      g'.connections.Square g.points.length ∧
      ∀ x y, Matrix.entry g'.connections x y =
        if 1 < g.points.length ∧ x < g.points.length ∧ y ≤ x then
          some (if x ≠ y then g'.connectionFn g'.heap (g'.points[x]?.getD 0) (g'.points[y]?.getD 0)
            else false)
        else Matrix.entry g.connections x y := by
  obtain ⟨h1, h2, h3, h4⟩ := Graph.move_loop M g.points 0 g
  have hsq1 : (forEachFrom (fun (s : Graph α) point _ =>
      { s with heap := s.heap.set point (Point.move M (s.heap point)) }) g.points 0
        g).connections.Square (forEachFrom (fun (s : Graph α) point _ =>
      { s with heap := s.heap.set point (Point.move M (s.heap point)) }) g.points 0
        g).points.length := by
    rw [h1, h3]; exact hsq
  obtain ⟨g', h, hf, hsq', he⟩ := Graph.calculateConnections_spec _ hsq1
  refine ⟨g', h, hf.2.1.trans h1, hf.2.2.trans h2, ?_, ?_, ?_⟩
  · intro r; rw [hf.1]; exact h4 r
  · rw [h1] at hsq'; exact hsq'
  · intro x y
    rw [he, hf.1, hf.2.1, hf.2.2, h1, h3]

theorem Graph.move_canonical {α : Type} (M : JsMath α) (g : Graph α) (hc : g.Canonical) :
    ∃ g', g.move M = some g' ∧ g'.Canonical := by
  obtain ⟨g', h, hp, _, _, hsq, he⟩ := Graph.move_spec M g hc.1
  refine ⟨g', h, ?_, ?_⟩
  · rw [hp]; exact hsq
  · intro x y
    rw [he]
    unfold Graph.expected
    rw [hp]
    by_cases hcnd : 1 < g.points.length ∧ x < g.points.length ∧ y ≤ x
    · rw [if_pos hcnd, if_pos hcnd]
    · rw [if_neg hcnd, if_neg hcnd, hc.2 x y]
      unfold Graph.expected
      rw [if_neg hcnd]

theorem Graph.criteria_loop {α : Type} (criteriaFn : Heap α → Ref → Bool) (L : List Ref) :
    ∀ (k : Nat) (s : Graph α),
      ∃ s', tryForEachFrom (fun (s : Graph α) el _ =>
            if !criteriaFn s.heap el then s.removePoint el else some s) L k s = some s' ∧
        s'.heap = s.heap ∧ s'.connectionFn = s.connectionFn ∧
        s'.points = s.points.filter (fun r => decide (r ∈ L → criteriaFn s.heap r = true)) := by
  induction L with
  | nil =>
    intro k s
    refine ⟨s, rfl, rfl, rfl, ?_⟩
    simp
  | cons a L ih =>
    intro k s
    by_cases hca : criteriaFn s.heap a = true
    · obtain ⟨s', h, hh, hfn, hp⟩ := ih (k + 1) s
      refine ⟨s', ?_, hh, hfn, ?_⟩
      · simp only [tryForEachFrom, hca]
        exact h
      · rw [hp]
        apply List.filter_congr
        intro r _
        by_cases hr : r = a
        · subst hr; simp [hca]
        · simp [hr]
    · obtain ⟨s1, h1, hh1, hp1, hfn1, _⟩ := Graph.removePoint_spec s a
      obtain ⟨s', h, hh, hfn, hp⟩ := ih (k + 1) s1
      have hca' : criteriaFn s.heap a = false := by simpa using hca
      refine ⟨s', ?_, hh.trans hh1, hfn.trans hfn1, ?_⟩
      · simp only [tryForEachFrom, hca', Bool.not_false, if_true, h1]
        exact h
      · rw [hp, hp1, hh1, List.filter_filter]
        apply List.filter_congr
        intro r _
        by_cases hr : r = a
        · subst hr; simp [hca']
        · have : ¬ a = r := fun e => hr e.symm
          simp [hr, this]

theorem Graph.removePointsByCriteria_spec {α : Type} (g : Graph α)
    (criteriaFn : Heap α → Ref → Bool) :
    ∃ g', g.removePointsByCriteria criteriaFn = some g' ∧ g'.heap = g.heap ∧
      g'.points = g.points.filter (criteriaFn g.heap) ∧
      g'.connectionFn = g.connectionFn ∧ g'.Canonical := by
  obtain ⟨s1, h1, hh1, hfn1, hp1⟩ := Graph.criteria_loop criteriaFn g.points 0 g
  obtain ⟨g', h, hf, hc⟩ := Graph.reinit_spec s1
  refine ⟨g', ?_, hf.1.trans hh1, ?_, hf.2.2.trans hfn1, hc⟩
  · unfold Graph.removePointsByCriteria tryForEach
    rw [h1]
    exact h
  · rw [hf.2.1, hp1]
    apply List.filter_congr
    intro r hr
    simp [hr]

theorem Reachable.canonical {α : Type} {M : JsMath α} {g : Graph α} (h : Reachable M g) :
    g.Canonical := by
  induction h with
  | new heap points connectionFn g hg =>
    obtain ⟨g1, h1, _, _, _, hc⟩ := Graph.new_spec heap points connectionFn
    rw [h1] at hg; cases hg; exact hc
  | addPoint g point g' _ hg _ =>
    obtain ⟨g1, h1, _, _, _, hc⟩ := Graph.addPoint_spec g point
    rw [h1] at hg; cases hg; exact hc
  | removePoint g point g' _ hg _ =>
    obtain ⟨g1, h1, _, _, _, hc⟩ := Graph.removePoint_spec g point
    rw [h1] at hg; cases hg; exact hc
  | removePointsByCriteria g criteriaFn g' _ hg _ =>
    obtain ⟨g1, h1, _, _, _, hc⟩ := Graph.removePointsByCriteria_spec g criteriaFn
    rw [h1] at hg; cases hg; exact hc
  | move g g' _ hg ih =>
    obtain ⟨g1, h1, hc⟩ := Graph.move_canonical M g ih
    rw [h1] at hg; cases hg; exact hc

/-! ## The claims -/

theorem filter_bne_length_add_count (p : Ref) (l : List Ref) :
    (l.filter (fun el => p != el)).length + l.count p = l.length := by
  induction l with
  | nil => rfl
  | cons a l ih =>
    by_cases h : a = p
    · subst h
      simp only [List.filter_cons, bne_self_eq_false, List.count_cons_self, List.length_cons]
      simp only [Bool.false_eq_true, if_false]
      omega
    · have hne : (p != a) = true := by simpa using fun e => h e.symm
      rw [List.filter_cons, if_pos hne, List.count_cons_of_ne (fun e => h e.symm)]
      simp only [List.length_cons]
      omega

theorem Graph.lower_get {α : Type} (g : Graph α) (i j : Nat) (hj : j ≤ i)
    (hi : i < g.points.length) :
    g.connectionFn g.heap (g.points[i]?.getD 0) (g.points[j]?.getD 0) =
      g.connectionFn g.heap (g.points.get ⟨i, hi⟩) (g.points.get ⟨j, Nat.lt_of_le_of_lt hj hi⟩) := by
  rw [List.getElem?_eq_getElem hi, List.getElem?_eq_getElem (Nat.lt_of_le_of_lt hj hi)]
  rfl

/-- C1: in every state reachable from the constructor by `addPoint`,
`removePoint`, `removePointsByCriteria` and `move`, the matrix has
`points.length` rows, every row is an array of `points.length` slots, and the
matrix is empty when there are no points. -/
theorem C1_matrix_square {α : Type} (M : JsMath α) (g : Graph α) (h : Reachable M g) :
    g.connections.length = g.points.length ∧
      (∀ r ∈ g.connections, ∃ row, r = some row ∧ row.length = g.points.length) ∧
      (g.points.length = 0 → g.connections = []) := by
  obtain ⟨hl, hr⟩ := h.canonical.1
  refine ⟨hl, ?_, ?_⟩
  · intro r hmem
    have := hr r hmem
    cases r with
    | none => simp at this
    | some row => exact ⟨row, rfl, by simpa using this⟩
  · intro h0
    exact List.eq_nil_of_length_eq_zero (hl.trans h0)

/-- C1 at the graph of the points A, B, C, reached by the constructor and one
`addPoint`. -/
theorem C1_matrix_square_witness :
    Reachable exampleMath graphABC ∧
      (graphABC.connections.length = graphABC.points.length ∧
        (∀ r ∈ graphABC.connections,
          ∃ row, r = some row ∧ row.length = graphABC.points.length) ∧
        (graphABC.points.length = 0 → graphABC.connections = [])) :=
  ⟨Reachable.addPoint graphAB 5 graphABC
      (Reachable.new exampleHeap (some [0, 1]) (some exampleFn) graphAB rfl) rfl,
    C1_matrix_square exampleMath graphABC
      (Reachable.addPoint graphAB 5 graphABC
        (Reachable.new exampleHeap (some [0, 1]) (some exampleFn) graphAB rfl) rfl)⟩

/-- C2 as stated fails on a graph of one point: the recomputation is skipped
below two points, so after `initConnections` and `calculateConnections` the
slot `connections[0][0]` is still unset, not `false`. -/
theorem C2_single_point_counterexample :
    graphA.initConnections.calculateConnections = some graphA ∧
      graphA.points.length = 1 ∧
      Matrix.entry graphA.connections 0 0 = none ∧
      Matrix.entry graphA.connections 0 0 ≠ some false :=
  ⟨rfl, rfl, rfl, by decide⟩

/-- C2, amended: on a graph of at least two points whose matrix is square of
side `points.length`, `calculateConnections` returns, changes neither the
points nor the predicate, and for all `j ≤ i < points.length` the slot
`connections[i][j]` holds `connectionFn(points[i], points[j])` when `i ≠ j`
and `false` when `i = j`. -/
theorem C2_lower_triangle {α : Type} (g : Graph α)
    (hsq : g.connections.Square g.points.length) (hn : 2 ≤ g.points.length) :
    ∃ g', g.calculateConnections = some g' ∧ g'.heap = g.heap ∧ g'.points = g.points ∧
      g'.connectionFn = g.connectionFn ∧
      ∀ (i j : Nat) (hj : j ≤ i) (hi : i < g.points.length),
        Matrix.entry g'.connections i j =
          some (if i ≠ j then
              g.connectionFn g.heap (g.points.get ⟨i, hi⟩)
                (g.points.get ⟨j, Nat.lt_of_le_of_lt hj hi⟩)
            else false) := by
  obtain ⟨g', h, hf, _, he⟩ := Graph.calculateConnections_spec g hsq
  refine ⟨g', h, hf.1, hf.2.1, hf.2.2, ?_⟩
  intro i j hj hi
  have hc : 1 < g.points.length ∧ i < g.points.length ∧ j ≤ i := ⟨hn, hi, hj⟩
  rw [he, if_pos hc, Graph.lower_get g i j hj hi]

/-- C2, amended, at the freshly initialised graph of two points. -/
theorem C2_lower_triangle_witness :
    graphFresh.connections.Square graphFresh.points.length ∧ 2 ≤ graphFresh.points.length ∧
      ∃ g', graphFresh.calculateConnections = some g' ∧ g'.heap = graphFresh.heap ∧
        g'.points = graphFresh.points ∧ g'.connectionFn = graphFresh.connectionFn ∧
        ∀ (i j : Nat) (hj : j ≤ i) (hi : i < graphFresh.points.length),
          Matrix.entry g'.connections i j =
            some (if i ≠ j then
                graphFresh.connectionFn graphFresh.heap (graphFresh.points.get ⟨i, hi⟩)
                  (graphFresh.points.get ⟨j, Nat.lt_of_le_of_lt hj hi⟩)
              else false) :=
  ⟨by decide, by decide, C2_lower_triangle graphFresh (by decide) (by decide)⟩

/-- C3 as stated fails on the graph `new Graph({ points: [p] })`: its 1x1
matrix has its single slot unset, not `false`. -/
theorem C3_one_point_counterexample :
    Reachable exampleMath graphA ∧ graphA.points.length = 1 ∧
      graphA.connections = [some [none]] ∧
      Matrix.entry graphA.connections 0 0 ≠ some false :=
  ⟨Reachable.new exampleHeap (some [0]) none graphA rfl, rfl, rfl, by decide⟩

/-- C3, amended: in every reachable state with at least two points every
diagonal slot `connections[i][i]`, `i < points.length`, holds `false`; in a
reachable state with exactly one point the matrix is 1x1 and its single slot
is unset. -/
theorem C3_diagonal {α : Type} (M : JsMath α) (g : Graph α) (h : Reachable M g) :
    (2 ≤ g.points.length →
        ∀ i, i < g.points.length → Matrix.entry g.connections i i = some false) ∧
      (g.points.length = 1 → g.connections = [some [none]]) := by
  have hc := h.canonical
  refine ⟨?_, ?_⟩
  · intro hn i hi
    have hcnd : 1 < g.points.length ∧ i < g.points.length ∧ i ≤ i := ⟨hn, hi, le_refl i⟩
    rw [hc.2 i i]
    unfold Graph.expected
    rw [if_pos hcnd]
    simp
  · intro h1
    have hsq : Matrix.Square [some [none]] 1 := by decide
    apply Matrix.ext_entry g.connections [some [none]] 1 (h1 ▸ hc.1) hsq
    intro x y
    rw [hc.2 x y]
    unfold Graph.expected
    have hcnd : ¬ (1 < g.points.length ∧ x < g.points.length ∧ y ≤ x) := by omega
    rw [if_neg hcnd]
    cases x with
    | zero =>
      cases y with
      | zero => rfl
      | succ y => rfl
    | succ x => rfl

/-- C3, amended, at the graph of the points A, B, C. -/
theorem C3_diagonal_witness :
    Reachable exampleMath graphABC ∧
      ((2 ≤ graphABC.points.length →
          ∀ i, i < graphABC.points.length → Matrix.entry graphABC.connections i i = some false) ∧
        (graphABC.points.length = 1 → graphABC.connections = [some [none]])) :=
  ⟨Reachable.addPoint graphAB 5 graphABC
      (Reachable.new exampleHeap (some [0, 1]) (some exampleFn) graphAB rfl) rfl,
    C3_diagonal exampleMath graphABC
      (Reachable.addPoint graphAB 5 graphABC
        (Reachable.new exampleHeap (some [0, 1]) (some exampleFn) graphAB rfl) rfl)⟩

/-- C4: `removePointsByCriteria(criteriaFn)` returns on every graph, and the
new point sequence is the old one filtered by the criteria, order kept: every
remaining point satisfies the criteria, every point that satisfies it remains,
and with the always-true criteria the sequence is unchanged. -/
theorem C4_removePointsByCriteria_filter {α : Type} (g : Graph α)
    (criteriaFn : Heap α → Ref → Bool) :
    (∃ g', g.removePointsByCriteria criteriaFn = some g' ∧
        g'.points = g.points.filter (criteriaFn g.heap) ∧
        (∀ r ∈ g'.points, criteriaFn g'.heap r = true) ∧
        (∀ r ∈ g.points, criteriaFn g.heap r = true → r ∈ g'.points)) ∧
      (∃ g', g.removePointsByCriteria (fun _ _ => true) = some g' ∧ g'.points = g.points) := by
  refine ⟨?_, ?_⟩
  · obtain ⟨g', h, hh, hp, _, _⟩ := Graph.removePointsByCriteria_spec g criteriaFn
    refine ⟨g', h, hp, ?_, ?_⟩
    · intro r hr
      rw [hp] at hr
      rw [hh]
      exact (List.mem_filter.mp hr).2
    · intro r hr hc
      rw [hp]
      exact List.mem_filter.mpr ⟨hr, hc⟩
  · obtain ⟨g', h, _, hp, _, _⟩ := Graph.removePointsByCriteria_spec g (fun _ _ => true)
    refine ⟨g', h, ?_⟩
    rw [hp]
    exact List.filter_true g.points

/-- C5: `removePoint(p)` returns on every graph, and the new point sequence is
the old one with every occurrence of `p` deleted, order kept: `p` no longer
occurs, and the length drops by the number of occurrences of `p`. -/
theorem C5_removePoint_filter {α : Type} (g : Graph α) (p : Ref) :
    ∃ g', g.removePoint p = some g' ∧
      g'.points = g.points.filter (fun el => decide (el ≠ p)) ∧
      p ∉ g'.points ∧
      g'.points.length + g.points.count p = g.points.length := by
  obtain ⟨g', h, _, hp, _, _⟩ := Graph.removePoint_spec g p
  have hfil : g.points.filter (fun el => p != el) = g.points.filter (fun el => decide (el ≠ p)) := by
    apply List.filter_congr
    intro r _
    by_cases hr : r = p
    · subst hr; simp
    · have : ¬ p = r := fun e => hr e.symm
      simp [hr, this]
  refine ⟨g', h, hp.trans hfil, ?_, ?_⟩
  · rw [hp]
    intro hmem
    have := (List.mem_filter.mp hmem).2
    simp at this
  · rw [hp]
    exact filter_bne_length_add_count p g.points

/-- C6: in a reachable state, `removePoint(p)` for a point `p` that does not
occur in the sequence returns and changes nothing: same point sequence, same
content in every slot of the matrix, same store and predicate. -/
theorem C6_removePoint_absent {α : Type} (M : JsMath α) (g : Graph α) (p : Ref)
    (h : Reachable M g) (hp : p ∉ g.points) :
    ∃ g', g.removePoint p = some g' ∧ g'.points = g.points ∧
      g'.connections = g.connections ∧ g'.heap = g.heap ∧
      g'.connectionFn = g.connectionFn := by
  obtain ⟨g', hg, hh, hpts, hfn, hc⟩ := Graph.removePoint_spec g p
  have hsame : g'.points = g.points := by
    rw [hpts]
    apply List.filter_eq_self.mpr
    intro r hr
    have : ¬ p = r := fun e => hp (e ▸ hr)
    simpa using this
  refine ⟨g', hg, hsame, ?_, hh, hfn⟩
  have hc0 := h.canonical
  apply Matrix.ext_entry g'.connections g.connections g.points.length (hsame ▸ hc.1) hc0.1
  intro x y
  rw [hc.2 x y, hc0.2 x y]
  unfold Graph.expected
  rw [hsame, hh, hfn]

/-- C6 at the graph of the points A and B and the absent point C. -/
theorem C6_removePoint_absent_witness :
    Reachable exampleMath graphAB ∧ 5 ∉ graphAB.points ∧
      ∃ g', graphAB.removePoint 5 = some g' ∧ g'.points = graphAB.points ∧
        g'.connections = graphAB.connections ∧ g'.heap = graphAB.heap ∧
        g'.connectionFn = graphAB.connectionFn :=
  ⟨Reachable.new exampleHeap (some [0, 1]) (some exampleFn) graphAB rfl, by decide,
    C6_removePoint_absent exampleMath graphAB 5
      (Reachable.new exampleHeap (some [0, 1]) (some exampleFn) graphAB rfl) (by decide)⟩

/-- C7: `addPoint(p)` returns on every graph; the new point sequence is the old
one followed by `p` (old points keep their index, `p` is at index `n`), the
matrix is square of side `n + 1`, and for every `j < n` the slot
`connections[n][j]` holds `connectionFn(p, points[j])`. -/
theorem C7_addPoint_appends {α : Type} (g : Graph α) (p : Ref) :
    ∃ g', g.addPoint p = some g' ∧ g'.points = g.points ++ [p] ∧
      (∀ (i : Nat) (hi : i < g.points.length), g'.points[i]? = some (g.points.get ⟨i, hi⟩)) ∧
      g'.points[g.points.length]? = some p ∧
      g'.connections.length = g.points.length + 1 ∧
      (∀ r ∈ g'.connections, ∃ row, r = some row ∧ row.length = g.points.length + 1) ∧
      ∀ (j : Nat) (hj : j < g.points.length),
        Matrix.entry g'.connections g.points.length j =
          some (g.connectionFn g.heap p (g.points.get ⟨j, hj⟩)) := by
  obtain ⟨g', h, hh, hp, hfn, hc⟩ := Graph.addPoint_spec g p
  have hlen : g'.points.length = g.points.length + 1 := by rw [hp]; simp
  refine ⟨g', h, hp, ?_, ?_, ?_, ?_, ?_⟩
  · intro i hi
    rw [hp, List.getElem?_append_left hi, List.getElem?_eq_getElem hi]
    rfl
  · rw [hp, List.getElem?_append_right (le_refl _)]
    simp
  · rw [hc.1.1, hlen]
  · intro r hmem
    have := hc.1.2 r hmem
    rw [hlen] at this
    cases r with
    | none => simp at this
    | some row => exact ⟨row, rfl, by simpa using this⟩
  · intro j hj
    have hcnd : 1 < g'.points.length ∧ g.points.length < g'.points.length ∧
        j ≤ g.points.length := ⟨by omega, by omega, by omega⟩
    have hne : g.points.length ≠ j := by omega
    rw [hc.2 _ j]
    unfold Graph.expected
    rw [if_pos hcnd, if_pos hne, hh, hfn, hp, List.getElem?_append_right (le_refl _),
      List.getElem?_append_left hj, List.getElem?_eq_getElem hj]
    simp

/-- C8 as stated fails when a point object occurs twice in the sequence:
`move()` calls `Point.move` once per element, so the object is moved twice
(`x` goes from 0 to 2), while one `Point.move` gives `x = 1`. -/
theorem C8_twice_counterexample :
    Reachable exampleMath graphTwice ∧ 0 ∈ graphTwice.points ∧
      (graphTwice.move exampleMath).map (fun g => (g.heap 0).x) = some 2 ∧
      (Point.move exampleMath (graphTwice.heap 0)).x = 1 :=
  ⟨Reachable.new exampleHeap (some [0, 0]) none graphTwice rfl, by decide, by decide,
    by decide⟩

/-- C8, amended: on a graph whose matrix is square of side `points.length`,
`move()` returns, keeps the point sequence, and applies `Point.move` to a
point object once per occurrence of it in the sequence (exactly once to an
object that occurs once, not at all to the others); afterwards, for all
`j < i < points.length`, the slot `connections[i][j]` holds `connectionFn`
evaluated on `points[i]` and `points[j]` in the store after the moves. -/
theorem C8_move_once_per_element {α : Type} (M : JsMath α) (g : Graph α)
    (hsq : g.connections.Square g.points.length) :
    ∃ g', g.move M = some g' ∧ g'.points = g.points ∧
      (∀ r, g'.heap r = (Point.move M)^[g.points.count r] (g.heap r)) ∧
      (∀ r, g.points.count r = 1 → g'.heap r = Point.move M (g.heap r)) ∧
      (∀ r, r ∉ g.points → g'.heap r = g.heap r) ∧
      ∀ (i j : Nat) (hj : j < i) (hi : i < g.points.length),
        Matrix.entry g'.connections i j =
          some (g.connectionFn g'.heap (g.points.get ⟨i, hi⟩)
            (g.points.get ⟨j, Nat.lt_trans hj hi⟩)) := by
  obtain ⟨g', h, hp, hfn, hheap, _, he⟩ := Graph.move_spec M g hsq
  refine ⟨g', h, hp, hheap, ?_, ?_, ?_⟩
  · intro r hr
    rw [hheap r, hr]
    rfl
  · intro r hr
    rw [hheap r, List.count_eq_zero_of_not_mem hr]
    rfl
  · intro i j hj hi
    have hcnd : 1 < g.points.length ∧ i < g.points.length ∧ j ≤ i :=
      ⟨by omega, hi, Nat.le_of_lt hj⟩
    have hne : i ≠ j := by omega
    rw [he, if_pos hcnd, if_pos hne, hfn, hp, List.getElem?_eq_getElem hi,
      List.getElem?_eq_getElem (Nat.lt_trans hj hi)]
    rfl

/-- C8, amended, at the graph of the points A, B, C. -/
theorem C8_move_once_per_element_witness :
    graphABC.connections.Square graphABC.points.length ∧
      ∃ g', graphABC.move exampleMath = some g' ∧ g'.points = graphABC.points ∧
        (∀ r, g'.heap r = (Point.move exampleMath)^[graphABC.points.count r] (graphABC.heap r)) ∧
        (∀ r, graphABC.points.count r = 1 →
          g'.heap r = Point.move exampleMath (graphABC.heap r)) ∧
        (∀ r, r ∉ graphABC.points → g'.heap r = graphABC.heap r) ∧
        ∀ (i j : Nat) (hj : j < i) (hi : i < graphABC.points.length),
          Matrix.entry g'.connections i j =
            some (graphABC.connectionFn g'.heap (graphABC.points.get ⟨i, hi⟩)
              (graphABC.points.get ⟨j, Nat.lt_trans hj hi⟩)) :=
  ⟨by decide, C8_move_once_per_element exampleMath graphABC (by decide)⟩

/-- C9: on a graph whose predicate is constantly true and whose matrix is
square of side `points.length`, `calculateConnections` returns and every slot
`connections[i][j]` with `j < i < points.length` holds `true`; a graph
constructed without a `connectionFn` has the constantly true predicate and
these slots hold `true`. -/
theorem C9_constant_true {α : Type} (g : Graph α)
    (hsq : g.connections.Square g.points.length)
    (htrue : ∀ h a b, g.connectionFn h a b = true) :
    (∃ g', g.calculateConnections = some g' ∧ g'.points = g.points ∧
        ∀ i j, j < i → i < g.points.length → Matrix.entry g'.connections i j = some true) ∧
      ∀ (heap : Heap α) (points : Option (List Ref)),
        ∃ g0, Graph.new heap points none = some g0 ∧
          (∀ h a b, g0.connectionFn h a b = true) ∧
          ∀ i j, j < i → i < g0.points.length →
            Matrix.entry g0.connections i j = some true := by
  refine ⟨?_, ?_⟩
  · obtain ⟨g', h, hf, _, he⟩ := Graph.calculateConnections_spec g hsq
    refine ⟨g', h, hf.2.1, ?_⟩
    intro i j hj hi
    have hcnd : 1 < g.points.length ∧ i < g.points.length ∧ j ≤ i :=
      ⟨by omega, hi, Nat.le_of_lt hj⟩
    have hne : i ≠ j := by omega
    rw [he, if_pos hcnd, if_pos hne, htrue]
  · intro heap points
    obtain ⟨g0, h, _, _, hfn, hc⟩ := Graph.new_spec heap points none
    have hdef : ∀ h a b, g0.connectionFn h a b = true := by
      intro h a b
      rw [hfn]
      rfl
    refine ⟨g0, h, hdef, ?_⟩
    intro i j hj hi
    have hcnd : 1 < g0.points.length ∧ i < g0.points.length ∧ j ≤ i :=
      ⟨by omega, hi, Nat.le_of_lt hj⟩
    have hne : i ≠ j := by omega
    rw [hc.2 i j]
    unfold Graph.expected
    rw [if_pos hcnd, if_pos hne, hdef]

/-- C9 at the graph `new Graph({ points: [p, p] })`, built without a
`connectionFn`. -/
theorem C9_constant_true_witness :
    graphTwice.connections.Square graphTwice.points.length ∧
      (∀ h a b, graphTwice.connectionFn h a b = true) ∧
      ((∃ g', graphTwice.calculateConnections = some g' ∧ g'.points = graphTwice.points ∧
          ∀ i j, j < i → i < graphTwice.points.length →
            Matrix.entry g'.connections i j = some true) ∧
        ∀ (heap : Heap Int) (points : Option (List Ref)),
          ∃ g0, Graph.new heap points none = some g0 ∧
            (∀ h a b, g0.connectionFn h a b = true) ∧
            ∀ i j, j < i → i < g0.points.length →
              Matrix.entry g0.connections i j = some true) :=
  ⟨by decide, fun _ _ _ => rfl, C9_constant_true graphTwice (by decide) (fun _ _ _ => rfl)⟩

/-- C10 as stated fails on the graph of two points built with the constantly
false predicate: the slot `connections[0][1]`, above the diagonal, is unset,
not `false`. -/
theorem C10_upper_counterexample :
    Graph.new exampleHeap (some [0, 1]) (some (fun _ _ _ => false)) = some graphNone ∧
      graphNone.points.length = 2 ∧
      Matrix.entry graphNone.connections 0 1 = none ∧
      Matrix.entry graphNone.connections 0 1 ≠ some false :=
  ⟨rfl, rfl, rfl, by decide⟩

/-- C10, amended: on a graph of at least two points whose predicate is
constantly false and whose matrix is square of side `points.length`,
`calculateConnections` returns, every slot on or below the diagonal
(`j ≤ i < points.length`) holds `false`, and the slots above the diagonal are
left as they were. -/
theorem C10_constant_false {α : Type} (g : Graph α)
    (hsq : g.connections.Square g.points.length) (hn : 2 ≤ g.points.length)
    (hfalse : ∀ h a b, g.connectionFn h a b = false) :
    ∃ g', g.calculateConnections = some g' ∧ g'.points = g.points ∧
      (∀ i j, j ≤ i → i < g.points.length → Matrix.entry g'.connections i j = some false) ∧
      ∀ i j, i < j → Matrix.entry g'.connections i j = Matrix.entry g.connections i j := by
  obtain ⟨g', h, hf, _, he⟩ := Graph.calculateConnections_spec g hsq
  refine ⟨g', h, hf.2.1, ?_, ?_⟩
  · intro i j hj hi
    have hcnd : 1 < g.points.length ∧ i < g.points.length ∧ j ≤ i := ⟨hn, hi, hj⟩
    rw [he, if_pos hcnd, hfalse]
    simp
  · intro i j hij
    have hcnd : ¬ (1 < g.points.length ∧ i < g.points.length ∧ j ≤ i) := by omega
    rw [he, if_neg hcnd]

/-- C10, amended, at the freshly initialised graph of two points. -/
theorem C10_constant_false_witness :
    graphFresh.connections.Square graphFresh.points.length ∧ 2 ≤ graphFresh.points.length ∧
      (∀ h a b, graphFresh.connectionFn h a b = false) ∧
      ∃ g', graphFresh.calculateConnections = some g' ∧ g'.points = graphFresh.points ∧
        (∀ i j, j ≤ i → i < graphFresh.points.length →
          Matrix.entry g'.connections i j = some false) ∧
        ∀ i j, i < j →
          Matrix.entry g'.connections i j = Matrix.entry graphFresh.connections i j :=
  ⟨by decide, by decide, fun _ _ _ => rfl,
    C10_constant_false graphFresh (by decide) (by decide) (fun _ _ _ => rfl)⟩

/-! ## The matrix is a function of the points -/

theorem Graph.eq_of_fields {α : Type} (g1 g2 : Graph α) (hh : g1.heap = g2.heap)
    (hp : g1.points = g2.points) (hf : g1.connectionFn = g2.connectionFn)
    (hc : g1.connections = g2.connections) : g1 = g2 := by
  cases g1
  cases g2
  simp only [Graph.mk.injEq]
  exact ⟨hh, hp, hf, hc⟩

theorem Graph.Canonical.connections_eq {α : Type} {g1 g2 : Graph α} (h1 : g1.Canonical)
    (h2 : g2.Canonical) (hh : g1.heap = g2.heap) (hp : g1.points = g2.points)
    (hf : g1.connectionFn = g2.connectionFn) : g1.connections = g2.connections := by
  apply Matrix.ext_entry g1.connections g2.connections g1.points.length h1.1 (hp ▸ h2.1)
  intro x y
  rw [h1.2 x y, h2.2 x y]
  unfold Graph.expected
  rw [hh, hp, hf]

theorem Graph.Canonical.reinit {α : Type} {g : Graph α} (h : g.Canonical) :
    g.initConnections.calculateConnections = some g := by
  obtain ⟨g', hg, hf, hc⟩ := Graph.reinit_spec g
  rw [hg]
  congr 1
  exact Graph.eq_of_fields g' g hf.1 hf.2.1 hf.2.2
    (Graph.Canonical.connections_eq hc h hf.1 hf.2.1 hf.2.2)

theorem exampleFn_symm (h : Heap Int) (a b : Ref) : exampleFn h a b = exampleFn h b a := by
  unfold exampleFn
  have e : ((h b).x - (h a).x) ^ 2 + ((h b).y - (h a).y) ^ 2 =
      ((h a).x - (h b).x) ^ 2 + ((h a).y - (h b).y) ^ 2 := by ring
  rw [e]

/-- C11 as stated fails on the graph of the points A and B with a symmetric
predicate: the slot `connections[0][1]` is unset while `connections[1][0]`
holds `true`, so the matrix is neither defined everywhere nor symmetric. -/
theorem C11_asymmetric_counterexample :
    Reachable exampleMath graphAB ∧
      (∀ h a b, graphAB.connectionFn h a b = graphAB.connectionFn h b a) ∧
      graphAB.points.length = 2 ∧
      Matrix.entry graphAB.connections 0 1 = none ∧
      Matrix.entry graphAB.connections 1 0 = some true ∧
      Matrix.entry graphAB.connections 0 1 ≠ Matrix.entry graphAB.connections 1 0 :=
  ⟨Reachable.new exampleHeap (some [0, 1]) (some exampleFn) graphAB rfl,
    exampleFn_symm, rfl, rfl, by decide, by decide⟩

/-- C11, amended: in every reachable state with at least two points and a
symmetric predicate, the slot `connections[i][j]` holds a boolean for all
`j ≤ i < points.length` and is unset for `i < j`; for `i ≠ j` in range the
value kept for the unordered pair, at `connections[max i j][min i j]`, is
`connectionFn(points[i], points[j])`, which equals
`connectionFn(points[j], points[i])`. -/
theorem C11_lower_defined_upper_unset {α : Type} (M : JsMath α) (g : Graph α)
    (h : Reachable M g) (hn : 2 ≤ g.points.length)
    (hsym : ∀ hp a b, g.connectionFn hp a b = g.connectionFn hp b a) :
    (∀ i j, j ≤ i → i < g.points.length → ∃ v, Matrix.entry g.connections i j = some v) ∧
      (∀ i j, i < j → Matrix.entry g.connections i j = none) ∧
      ∀ (i j : Nat) (hi : i < g.points.length) (hj : j < g.points.length), i ≠ j →
        Matrix.entry g.connections (max i j) (min i j) =
            some (g.connectionFn g.heap (g.points.get ⟨i, hi⟩) (g.points.get ⟨j, hj⟩)) ∧
          g.connectionFn g.heap (g.points.get ⟨i, hi⟩) (g.points.get ⟨j, hj⟩) =
            g.connectionFn g.heap (g.points.get ⟨j, hj⟩) (g.points.get ⟨i, hi⟩) := by
  have hc := h.canonical
  refine ⟨?_, ?_, ?_⟩
  · intro i j hj hi
    have hcnd : 1 < g.points.length ∧ i < g.points.length ∧ j ≤ i := ⟨hn, hi, hj⟩
    rw [hc.2 i j]
    unfold Graph.expected
    rw [if_pos hcnd]
    exact ⟨_, rfl⟩
  · intro i j hij
    have hcnd : ¬ (1 < g.points.length ∧ i < g.points.length ∧ j ≤ i) := by omega
    rw [hc.2 i j]
    unfold Graph.expected
    rw [if_neg hcnd]
  · intro i j hi hj hne
    refine ⟨?_, hsym _ _ _⟩
    rw [hc.2]
    unfold Graph.expected
    rcases Nat.lt_or_gt_of_ne hne with hlt | hgt
    · have hmax : max i j = j := Nat.max_eq_right (Nat.le_of_lt hlt)
      have hmin : min i j = i := Nat.min_eq_left (Nat.le_of_lt hlt)
      have hcnd : 1 < g.points.length ∧ j < g.points.length ∧ i ≤ j :=
        ⟨hn, hj, Nat.le_of_lt hlt⟩
      have hji : j ≠ i := fun e => hne e.symm
      rw [hmax, hmin, if_pos hcnd, if_pos hji, List.getElem?_eq_getElem hi,
        List.getElem?_eq_getElem hj, hsym]
      rfl
    · have hmax : max i j = i := Nat.max_eq_left (Nat.le_of_lt hgt)
      have hmin : min i j = j := Nat.min_eq_right (Nat.le_of_lt hgt)
      have hcnd : 1 < g.points.length ∧ i < g.points.length ∧ j ≤ i :=
        ⟨hn, hi, Nat.le_of_lt hgt⟩
      rw [hmax, hmin, if_pos hcnd, if_pos hne, List.getElem?_eq_getElem hi,
        List.getElem?_eq_getElem hj]
      rfl

/-- C11, amended, at the graph of the points A, B, C. -/
theorem C11_lower_defined_upper_unset_witness :
    Reachable exampleMath graphABC ∧ 2 ≤ graphABC.points.length ∧
      (∀ hp a b, graphABC.connectionFn hp a b = graphABC.connectionFn hp b a) ∧
      ((∀ i j, j ≤ i → i < graphABC.points.length →
          ∃ v, Matrix.entry graphABC.connections i j = some v) ∧
        (∀ i j, i < j → Matrix.entry graphABC.connections i j = none) ∧
        ∀ (i j : Nat) (hi : i < graphABC.points.length) (hj : j < graphABC.points.length),
          i ≠ j →
          Matrix.entry graphABC.connections (max i j) (min i j) =
              some (graphABC.connectionFn graphABC.heap (graphABC.points.get ⟨i, hi⟩)
                (graphABC.points.get ⟨j, hj⟩)) ∧
            graphABC.connectionFn graphABC.heap (graphABC.points.get ⟨i, hi⟩)
                (graphABC.points.get ⟨j, hj⟩) =
              graphABC.connectionFn graphABC.heap (graphABC.points.get ⟨j, hj⟩)
                (graphABC.points.get ⟨i, hi⟩)) :=
  ⟨Reachable.addPoint graphAB 5 graphABC
      (Reachable.new exampleHeap (some [0, 1]) (some exampleFn) graphAB rfl) rfl,
    by decide, exampleFn_symm,
    C11_lower_defined_upper_unset exampleMath graphABC
      (Reachable.addPoint graphAB 5 graphABC
        (Reachable.new exampleHeap (some [0, 1]) (some exampleFn) graphAB rfl) rfl)
      (by decide) exampleFn_symm⟩

/-- C14: in a reachable state with zero points `move()` returns and changes
nothing, `getPoints()` is the empty sequence and `getConnections()` the empty
matrix; a graph constructed with no points returns these before any call, and
`move()` leaves it as it is. -/
theorem C14_move_empty {α : Type} (M : JsMath α) (g : Graph α) (h : Reachable M g)
    (h0 : g.points.length = 0) :
    g.move M = some g ∧ g.getPoints = [] ∧ g.getConnections = [] ∧
      ∀ (heap : Heap α) (connectionFn : Option (Heap α → Ref → Ref → Bool)),
        ∃ g0, Graph.new heap none connectionFn = some g0 ∧ g0.getPoints = [] ∧
          g0.getConnections = [] ∧ g0.move M = some g0 := by
  have hmove : ∀ s : Graph α, s.points = [] → s.move M = some s := by
    intro s hs
    obtain ⟨sh, sp, sf, sc⟩ := s
    simp only at hs
    subst hs
    rfl
  have hp : g.points = [] := List.eq_nil_of_length_eq_zero h0
  refine ⟨hmove g hp, hp, ?_, ?_⟩
  · exact List.eq_nil_of_length_eq_zero (h.canonical.1.1.trans h0)
  · intro heap connectionFn
    obtain ⟨g0, hg0, _, hp0, _, hc0⟩ := Graph.new_spec heap none connectionFn
    have hp0' : g0.points = [] := hp0
    refine ⟨g0, hg0, hp0', ?_, hmove g0 hp0'⟩
    have hl : g0.connections.length = 0 := by
      rw [hc0.1.1, hp0']
      rfl
    exact List.eq_nil_of_length_eq_zero hl

/-- C14 at the graph `new Graph({ connectionFn })`. -/
theorem C14_move_empty_witness :
    Reachable exampleMath graphEmpty ∧ graphEmpty.points.length = 0 ∧
      (graphEmpty.move exampleMath = some graphEmpty ∧ graphEmpty.getPoints = [] ∧
        graphEmpty.getConnections = [] ∧
        ∀ (heap : Heap Int) (connectionFn : Option (Heap Int → Ref → Ref → Bool)),
          ∃ g0, Graph.new heap none connectionFn = some g0 ∧ g0.getPoints = [] ∧
            g0.getConnections = [] ∧ g0.move exampleMath = some g0) :=
  ⟨Reachable.new exampleHeap none (some exampleFn) graphEmpty rfl, rfl,
    C14_move_empty exampleMath graphEmpty
      (Reachable.new exampleHeap none (some exampleFn) graphEmpty rfl) rfl⟩

/-- C16: on every graph, `removePointsByCriteria(criteriaFn)` returns, and it
returns the very state that filtering the point sequence once and rebuilding
the matrix once gives: same points, same matrix, same store and predicate. -/
theorem C16_bulk_removal_refines {α : Type} (g : Graph α) (criteriaFn : Heap α → Ref → Bool) :
    ∃ g', g.removePointsByCriteria criteriaFn = some g' ∧
      g.filterOnceRebuildOnce criteriaFn = some g' ∧
      g'.points = g.points.filter (criteriaFn g.heap) := by
  obtain ⟨g1, h1, hh1, hp1, hf1, hc1⟩ := Graph.removePointsByCriteria_spec g criteriaFn
  obtain ⟨g2, h2, hfr2, hc2⟩ :=
    Graph.reinit_spec ({ g with points := g.points.filter (criteriaFn g.heap) })
  refine ⟨g1, h1, ?_, hp1⟩
  unfold Graph.filterOnceRebuildOnce
  rw [h2]
  congr 1
  have hh : g2.heap = g1.heap := hfr2.1.trans hh1.symm
  have hp : g2.points = g1.points := hfr2.2.1.trans hp1.symm
  have hf : g2.connectionFn = g1.connectionFn := hfr2.2.2.trans hf1.symm
  exact Graph.eq_of_fields g2 g1 hh hp hf (Graph.Canonical.connections_eq hc2 hc1 hh hp hf)

/-- C18: in every reachable state every slot above the diagonal,
`connections[i][j]` with `i < j < points.length`, is unset. -/
theorem C18_upper_unset {α : Type} (M : JsMath α) (g : Graph α) (h : Reachable M g) :
    ∀ i j, i < j → j < g.points.length → Matrix.entry g.connections i j = none := by
  intro i j hij _
  have hcnd : ¬ (1 < g.points.length ∧ i < g.points.length ∧ j ≤ i) := by omega
  rw [h.canonical.2 i j]
  unfold Graph.expected
  rw [if_neg hcnd]

/-- C18 at the graph of the points A, B, C. -/
theorem C18_upper_unset_witness :
    Reachable exampleMath graphABC ∧
      ∀ i j, i < j → j < graphABC.points.length →
        Matrix.entry graphABC.connections i j = none :=
  ⟨Reachable.addPoint graphAB 5 graphABC
      (Reachable.new exampleHeap (some [0, 1]) (some exampleFn) graphAB rfl) rfl,
    C18_upper_unset exampleMath graphABC
      (Reachable.addPoint graphAB 5 graphABC
        (Reachable.new exampleHeap (some [0, 1]) (some exampleFn) graphAB rfl) rfl)⟩

/-- C19: a reachable state is what `initConnections` followed by
`calculateConnections` gives on its own points; `move()` returns a state for
which this holds again (on the moved points); and two reachable states with
the same point sequence, store and predicate have equal matrices. -/
theorem C19_matrix_determined {α : Type} (M : JsMath α) (g g2 : Graph α)
    (h : Reachable M g) (h2 : Reachable M g2) :
    g.initConnections.calculateConnections = some g ∧
      (∃ g', g.move M = some g' ∧ g'.initConnections.calculateConnections = some g') ∧
      (g2.points = g.points → g2.heap = g.heap → g2.connectionFn = g.connectionFn →
        g2.connections = g.connections) := by
  refine ⟨h.canonical.reinit, ?_, ?_⟩
  · obtain ⟨g', hg', hc'⟩ := Graph.move_canonical M g h.canonical
    exact ⟨g', hg', hc'.reinit⟩
  · intro hp hh hf
    exact Graph.Canonical.connections_eq h2.canonical h.canonical hh hp hf

/-- C19 at two ways to reach the graph of the points A and B: by the
constructor, and by the constructor on A, B, C followed by `removePoint(C)`. -/
theorem C19_matrix_determined_witness :
    Reachable exampleMath graphAB ∧ Reachable exampleMath graphAB ∧
      (graphAB.initConnections.calculateConnections = some graphAB ∧
        (∃ g', graphAB.move exampleMath = some g' ∧
          g'.initConnections.calculateConnections = some g') ∧
        (graphAB.points = graphAB.points → graphAB.heap = graphAB.heap →
          graphAB.connectionFn = graphAB.connectionFn →
          graphAB.connections = graphAB.connections)) :=
  ⟨Reachable.new exampleHeap (some [0, 1]) (some exampleFn) graphAB rfl,
    Reachable.removePoint graphABC 5 graphAB
      (Reachable.new exampleHeap (some [0, 1, 5]) (some exampleFn) graphABC rfl) rfl,
    C19_matrix_determined exampleMath graphAB graphAB
      (Reachable.new exampleHeap (some [0, 1]) (some exampleFn) graphAB rfl)
      (Reachable.removePoint graphABC 5 graphAB
        (Reachable.new exampleHeap (some [0, 1, 5]) (some exampleFn) graphABC rfl) rfl)⟩

/-! ## The recorded recomputation -/

theorem tryForEachFrom_fst {σ τ α : Type} (f : σ → α → Nat → Option σ)
    (f' : σ × τ → α → Nat → Option (σ × τ))
    (hsim : ∀ t a i, (f' t a i).map Prod.fst = f t.1 a i) (L : List α) :
    ∀ (k : Nat) (t : σ × τ),
      (tryForEachFrom f' L k t).map Prod.fst = tryForEachFrom f L k t.1 := by
  induction L with
  | nil => intro k t; rfl
  | cons a L ih =>
    intro k t
    have h := hsim t a k
    simp only [tryForEachFrom]
    cases h' : f' t a k with
    | none =>
      rw [h'] at h
      rw [← h]
      rfl
    | some t1 =>
      rw [h'] at h
      rw [← h]
      exact ih (k + 1) t1

theorem Graph.setConnectionTraced_fst {α : Type} (t : Graph α × Trace) (o i : Nat) (v : Bool) :
    (Graph.setConnectionTraced t o i v).map Prod.fst = t.1.setConnection o i v := by
  unfold Graph.setConnectionTraced
  cases t.1.setConnection o i v <;> rfl

/-- The recorded recomputation computes the state `calculateConnections`
computes. -/
theorem Graph.calculateConnectionsTraced_fst {α : Type} (g : Graph α) :
    g.calculateConnectionsTraced.map Prod.fst = g.calculateConnections := by
  unfold Graph.calculateConnectionsTraced Graph.calculateConnections
  by_cases hn : g.points.length > 1
  · simp only [if_pos hn]
    unfold tryForEach
    apply tryForEachFrom_fst
    intro t a o
    apply tryForEachFrom_fst
    intro t b i
    by_cases hoi : o ≠ i
    · simp only [if_pos hoi]
      exact Graph.setConnectionTraced_fst _ o i _
    · simp only [if_neg hoi]
      exact Graph.setConnectionTraced_fst _ o i _
  · simp only [if_neg hn]
    rfl

theorem Graph.setConnectionTraced_spec {α : Type} (t : Graph α × Trace) (n o i : Nat) (v : Bool)
    (hsq : t.1.connections.Square n) (ho : o < n) (hi : i < n) :
    ∃ g1 w, Graph.setConnectionTraced t o i v =
        some (g1, Trace.mk t.2.calls (t.2.writes ++ [w])) ∧
      g1.connections.Square n ∧ w.InBounds := by
  obtain ⟨g1, h1, _, hsq1, _⟩ := Graph.setConnection_spec t.1 n o i v hsq ho hi
  obtain ⟨row, hrow, hlen⟩ := hsq.read ho
  refine ⟨g1, Write.mk o i t.1.connections.length
      ((JsArray.read t.1.connections o).map List.length), ?_, hsq1, ?_⟩
  · unfold Graph.setConnectionTraced
    rw [h1]
  · refine ⟨by rw [hsq.1]; exact ho, row.length, ?_, by rw [hlen]; exact hi⟩
    show (JsArray.read t.1.connections o).map List.length = some row.length
    rw [hrow]
    rfl

theorem count_snoc (l : List Call) (c0 c : Call) :
    (l ++ [c0]).count c = l.count c + if c0 = c then 1 else 0 := by
  rw [List.count_append, List.count_singleton]
  by_cases h : c0 = c
  · subst h; simp
  · simp [h]

theorem ite_one_congr {P Q : Prop} [Decidable P] [Decidable Q] (h : P ↔ Q) :
    (if P then 1 else 0 : Nat) = if Q then 1 else 0 := by
  by_cases hp : P
  · rw [if_pos hp, if_pos (h.mp hp)]
  · rw [if_neg hp, if_neg (fun hq => hp (h.mpr hq))]

theorem ite_one_add {P Q R : Prop} [Decidable P] [Decidable Q] [Decidable R]
    (h1 : R ↔ P ∨ Q) (h2 : ¬ (P ∧ Q)) :
    (if P then 1 else 0 : Nat) + (if Q then 1 else 0) = if R then 1 else 0 := by
  by_cases hp : P
  · have hq : ¬ Q := fun hq => h2 ⟨hp, hq⟩
    rw [if_pos hp, if_neg hq, if_pos (h1.mpr (Or.inl hp))]
  · by_cases hq : Q
    · rw [if_neg hp, if_pos hq, if_pos (h1.mpr (Or.inr hq))]
    · have hr : ¬ R := fun hr => (h1.mp hr).elim hp hq
      rw [if_neg hp, if_neg hq, if_neg hr]

theorem getElem?_cons_sub (b : Ref) (L : List Ref) (i k : Nat) (h : k < i) :
    (b :: L)[i - k]? = L[i - (k + 1)]? := by
  have hsub : i - k = (i - (k + 1)) + 1 := by omega
  rw [hsub, List.getElem?_cons_succ]

theorem Graph.inner_traced {α : Type} (n o : Nat) (a : Ref) (ho : o < n) (L : List Ref) :
    ∀ (k : Nat) (t : Graph α × Trace), t.1.connections.Square n → k + L.length ≤ n →
      ∃ t', tryForEachFrom (fun (t : Graph α × Trace) b innerIndex =>
              if o ≠ innerIndex then
                Graph.setConnectionTraced
                  (t.1, { t.2 with
                    calls := t.2.calls ++
                      [{ outerIndex := o, innerIndex := innerIndex, a := a, b := b }] })
                  o innerIndex (t.1.connectionFn t.1.heap a b)
              else
                Graph.setConnectionTraced t o innerIndex false) L k t = some t' ∧
        t'.1.connections.Square n ∧
        (∀ c : Call, t'.2.calls.count c = t.2.calls.count c +
          if c.outerIndex = o ∧ c.innerIndex ≠ o ∧ k ≤ c.innerIndex ∧
              c.innerIndex < k + L.length ∧ c.a = a ∧ L[c.innerIndex - k]? = some c.b
          then 1 else 0) ∧
        (t'.2.calls.length + (if k ≤ o ∧ o < k + L.length then 1 else 0) =
          t.2.calls.length + L.length) ∧
        ((∀ w ∈ t.2.writes, w.InBounds) → ∀ w ∈ t'.2.writes, w.InBounds) := by
  induction L with
  | nil =>
    intro k t hsq _
    refine ⟨t, rfl, hsq, ?_, ?_, fun h => h⟩
    · intro c
      have hc : ¬ (c.outerIndex = o ∧ c.innerIndex ≠ o ∧ k ≤ c.innerIndex ∧
          c.innerIndex < k + ([] : List Ref).length ∧ c.a = a ∧
          ([] : List Ref)[c.innerIndex - k]? = some c.b) := by
        simp only [List.length_nil]; omega
      rw [if_neg hc]; rfl
    · have hc : ¬ (k ≤ o ∧ o < k + ([] : List Ref).length) := by
        simp only [List.length_nil]; omega
      rw [if_neg hc]; rfl
  | cons b L ih =>
    intro k t hsq hk
    simp only [List.length_cons] at hk
    by_cases hok : o ≠ k
    · obtain ⟨g1, w, h1, hsq1, hw⟩ := Graph.setConnectionTraced_spec
        (t.1, Trace.mk (t.2.calls ++ [Call.mk o k a b]) t.2.writes)
        n o k (t.1.connectionFn t.1.heap a b) hsq ho (by omega)
      obtain ⟨t', h2, hsq2, hcnt, hlen, hwr⟩ := ih (k + 1)
        (g1, Trace.mk (t.2.calls ++ [Call.mk o k a b]) (t.2.writes ++ [w])) hsq1 (by omega)
      refine ⟨t', ?_, hsq2, ?_, ?_, ?_⟩
      · simp only [tryForEachFrom, if_pos hok]
        rw [h1]
        exact h2
      · intro c
        rw [hcnt c]
        show (t.2.calls ++ [Call.mk o k a b]).count c + _ = _
        rw [count_snoc, Nat.add_assoc]
        congr 1
        apply ite_one_add
        · constructor
          · rintro ⟨h1', h2', h3', h4', h5', h6'⟩
            by_cases hi : c.innerIndex = k
            · left
              rw [hi, Nat.sub_self, List.getElem?_cons_zero] at h6'
              obtain ⟨co, ci, ca, cb⟩ := c
              simp only [Call.mk.injEq]
              exact ⟨h1'.symm, hi.symm, h5'.symm, Option.some.inj h6'⟩
            · right
              have hlt : k < c.innerIndex := by omega
              rw [getElem?_cons_sub b L _ k hlt] at h6'
              simp only [List.length_cons] at h4'
              exact ⟨h1', h2', by omega, by omega, h5', h6'⟩
          · rintro (heq | ⟨h1', h2', h3', h4', h5', h6'⟩)
            · subst heq
              refine ⟨rfl, fun e => hok e.symm, le_refl _, ?_, rfl, ?_⟩
              · simp only [List.length_cons]; omega
              · show (b :: L)[k - k]? = some b
                rw [Nat.sub_self, List.getElem?_cons_zero]
            · refine ⟨h1', h2', by omega, ?_, h5', ?_⟩
              · simp only [List.length_cons]; omega
              · rw [getElem?_cons_sub b L _ k (by omega)]; exact h6'
        · rintro ⟨heq, _, _, h3', _⟩
          subst heq
          have h3'' : k + 1 ≤ k := h3'
          omega
      · have hl1 : (t.2.calls ++ [Call.mk o k a b]).length = t.2.calls.length + 1 := by simp
        have hlen' : t'.2.calls.length + (if k + 1 ≤ o ∧ o < k + 1 + L.length then 1 else 0) =
            (t.2.calls ++ [Call.mk o k a b]).length + L.length := hlen
        rw [hl1] at hlen'
        simp only [List.length_cons]
        by_cases hc : k + 1 ≤ o ∧ o < k + 1 + L.length
        · have e2 : k ≤ o ∧ o < k + (L.length + 1) := by omega
          rw [if_pos hc] at hlen'
          rw [if_pos e2]
          omega
        · have e2 : ¬ (k ≤ o ∧ o < k + (L.length + 1)) := by omega
          rw [if_neg hc] at hlen'
          rw [if_neg e2]
          omega
      · intro hall
        apply hwr
        intro w' hw'
        rcases List.mem_append.mp hw' with hm | hm
        · exact hall w' hm
        · rw [List.mem_singleton.mp hm]; exact hw
    · have hok' : o = k := by
        by_contra hne
        exact hok hne
      obtain ⟨g1, w, h1, hsq1, hw⟩ :=
        Graph.setConnectionTraced_spec t n o k false hsq ho (by omega)
      obtain ⟨t', h2, hsq2, hcnt, hlen, hwr⟩ := ih (k + 1)
        (g1, Trace.mk t.2.calls (t.2.writes ++ [w])) hsq1 (by omega)
      refine ⟨t', ?_, hsq2, ?_, ?_, ?_⟩
      · simp only [tryForEachFrom, if_neg hok]
        rw [h1]
        exact h2
      · intro c
        rw [hcnt c]
        show t.2.calls.count c + _ = _
        congr 1
        apply ite_one_congr
        constructor
        · rintro ⟨h1', h2', h3', h4', h5', h6'⟩
          refine ⟨h1', h2', by omega, ?_, h5', ?_⟩
          · simp only [List.length_cons]; omega
          · rw [getElem?_cons_sub b L _ k (by omega)]; exact h6'
        · rintro ⟨h1', h2', h3', h4', h5', h6'⟩
          have hlt : k < c.innerIndex := by omega
          rw [getElem?_cons_sub b L _ k hlt] at h6'
          simp only [List.length_cons] at h4'
          exact ⟨h1', h2', by omega, by omega, h5', h6'⟩
      · have hlen' : t'.2.calls.length + (if k + 1 ≤ o ∧ o < k + 1 + L.length then 1 else 0) =
            t.2.calls.length + L.length := hlen
        have hc : ¬ (k + 1 ≤ o ∧ o < k + 1 + L.length) := by omega
        have e2 : k ≤ o ∧ o < k + (L.length + 1) := by omega
        rw [if_neg hc] at hlen'
        simp only [List.length_cons]
        rw [if_pos e2]
        omega
      · intro hall
        apply hwr
        intro w' hw'
        rcases List.mem_append.mp hw' with hm | hm
        · exact hall w' hm
        · rw [List.mem_singleton.mp hm]; exact hw

theorem tri_step (k : Nat) : k * (k - 1) + 2 * k = (k + 1) * k := by
  cases k with
  | zero => rfl
  | succ m =>
    simp only [Nat.add_sub_cancel]
    ring

theorem getElem?_some_lt (l : List Ref) (i : Nat) (x : Ref) (h : l[i]? = some x) :
    i < l.length := by
  by_contra hlt
  rw [List.getElem?_eq_none (Nat.le_of_not_lt hlt)] at h
  exact Option.noConfusion h

theorem Graph.outer_traced {α : Type} (points : List Ref) (n : Nat) (hn : points.length = n)
    (L : List Ref) :
    ∀ (k : Nat) (t : Graph α × Trace), points.drop k = L → k ≤ n → t.1.connections.Square n →
      ∃ t', tryForEachFrom (fun (t : Graph α × Trace) a outerIndex =>
              tryForEach (fun (t : Graph α × Trace) b innerIndex =>
                  if outerIndex ≠ innerIndex then
                    Graph.setConnectionTraced
                      (t.1, { t.2 with
                        calls := t.2.calls ++
                          [{ outerIndex := outerIndex, innerIndex := innerIndex, a := a, b := b }] })
                      outerIndex innerIndex (t.1.connectionFn t.1.heap a b)
                  else
                    Graph.setConnectionTraced t outerIndex innerIndex false)
                (points.take (outerIndex + 1)) t) L k t = some t' ∧
        t'.1.connections.Square n ∧
        (∀ c : Call, t'.2.calls.count c = t.2.calls.count c +
          if k ≤ c.outerIndex ∧ c.innerIndex < c.outerIndex ∧
              points[c.outerIndex]? = some c.a ∧ points[c.innerIndex]? = some c.b
          then 1 else 0) ∧
        (2 * t'.2.calls.length + k * (k - 1) = 2 * t.2.calls.length + n * (n - 1)) ∧
        ((∀ w ∈ t.2.writes, w.InBounds) → ∀ w ∈ t'.2.writes, w.InBounds) := by
  induction L with
  | nil =>
    intro k t hdrop hkn hsq
    have hk : n ≤ k := by
      rw [← hn]; exact List.drop_eq_nil_iff.mp hdrop
    have hkeq : k = n := Nat.le_antisymm hkn hk
    refine ⟨t, rfl, hsq, ?_, by rw [hkeq], fun h => h⟩
    intro c
    have hc : ¬ (k ≤ c.outerIndex ∧ c.innerIndex < c.outerIndex ∧
        points[c.outerIndex]? = some c.a ∧ points[c.innerIndex]? = some c.b) := by
      rintro ⟨h1, _, h3, _⟩
      have := getElem?_some_lt points _ _ h3
      omega
    rw [if_neg hc]; rfl
  | cons a L ih =>
    intro k t hdrop _ hsq
    have hk : k < n := by
      rw [← hn]
      by_contra hc
      rw [List.drop_eq_nil_iff.mpr (Nat.le_of_not_lt hc)] at hdrop
      exact List.noConfusion hdrop
    have hk2 : k < points.length := hn ▸ hk
    rw [List.drop_eq_getElem_cons hk2] at hdrop
    have ha : points[k] = a := (List.cons.inj hdrop).1
    have hL : points.drop (k + 1) = L := (List.cons.inj hdrop).2
    have hlen : (points.take (k + 1)).length = k + 1 := by
      rw [List.length_take]; omega
    have hpk : points[k]? = some a := by
      rw [List.getElem?_eq_getElem hk2, ha]
    obtain ⟨t1, h1, hsq1, hcnt1, hlen1, hwr1⟩ :=
      Graph.inner_traced n k a hk (points.take (k + 1)) 0 t hsq (by rw [hlen]; omega)
    obtain ⟨t2, h2, hsq2, hcnt2, hlen2, hwr2⟩ := ih (k + 1) t1 hL (by omega) hsq1
    refine ⟨t2, ?_, hsq2, ?_, ?_, fun h => hwr2 (hwr1 h)⟩
    · simp only [tryForEachFrom]
      unfold tryForEach
      rw [h1]
      exact h2
    · intro c
      rw [hcnt2 c, hcnt1 c, Nat.add_assoc]
      congr 1
      apply ite_one_add
      · constructor
        · rintro ⟨h1', h2', h3', h4'⟩
          by_cases hx : c.outerIndex = k
          · left
            rw [hx] at h2' h3'
            rw [hpk] at h3'
            refine ⟨hx, by omega, Nat.zero_le _, by rw [hlen]; omega, (Option.some.inj h3').symm,
              ?_⟩
            rw [Nat.sub_zero, List.getElem?_take_of_lt (by omega)]
            exact h4'
          · right
            exact ⟨by omega, h2', h3', h4'⟩
        · rintro (⟨h1', h2', _, h4', h5', h6'⟩ | ⟨h1', h2', h3', h4'⟩)
          · rw [hlen] at h4'
            have hlt : c.innerIndex < k := by omega
            rw [Nat.sub_zero, List.getElem?_take_of_lt (by omega)] at h6'
            refine ⟨by omega, by omega, ?_, h6'⟩
            rw [h1', hpk, h5']
          · exact ⟨by omega, h2', h3', h4'⟩
      · rintro ⟨⟨h1', _⟩, ⟨h2', _⟩⟩
        omega
    · have e1 : (0 ≤ k ∧ k < 0 + (points.take (k + 1)).length) := by
        rw [hlen]; omega
      rw [if_pos e1, hlen] at hlen1
      rw [Nat.add_sub_cancel, ← tri_step k] at hlen2
      generalize k * (k - 1) = A at hlen2 ⊢
      generalize n * (n - 1) = N at hlen2 ⊢
      omega

/-- What one recorded run of `calculateConnections` calls and writes. -/
theorem Graph.calculateConnectionsTraced_spec {α : Type} (g : Graph α)
    (hsq : g.connections.Square g.points.length) :
    ∃ g' tr, g.calculateConnectionsTraced = some (g', tr) ∧
      g.calculateConnections = some g' ∧
      (∀ c : Call, tr.calls.count c =
        if c.innerIndex < c.outerIndex ∧ g.points[c.outerIndex]? = some c.a ∧
            g.points[c.innerIndex]? = some c.b
        then 1 else 0) ∧
      2 * tr.calls.length = g.points.length * (g.points.length - 1) ∧
      ∀ w ∈ tr.writes, w.InBounds := by
  have hfst := Graph.calculateConnectionsTraced_fst g
  by_cases hn : g.points.length > 1
  · obtain ⟨t', h, _, hcnt, hlen, hwr⟩ :=
      Graph.outer_traced g.points g.points.length rfl g.points 0
        (g, Trace.mk [] []) (List.drop_zero _) (Nat.zero_le _) hsq
    have htr : g.calculateConnectionsTraced = some t' := by
      unfold Graph.calculateConnectionsTraced
      simp only [if_pos hn]
      exact h
    rw [htr] at hfst
    refine ⟨t'.1, t'.2, htr, hfst.symm, ?_, ?_, ?_⟩
    · intro c
      rw [hcnt c]
      show 0 + _ = _
      rw [Nat.zero_add]
      apply ite_one_congr
      constructor
      · rintro ⟨_, h2, h3, h4⟩
        exact ⟨h2, h3, h4⟩
      · rintro ⟨h2, h3, h4⟩
        exact ⟨Nat.zero_le _, h2, h3, h4⟩
    · have hlen' : 2 * t'.2.calls.length + 0 * (0 - 1) =
          2 * 0 + g.points.length * (g.points.length - 1) := hlen
      omega
    · exact hwr (fun w hw => absurd hw (List.not_mem_nil w))
  · have htr : g.calculateConnectionsTraced = some (g, Trace.mk [] []) := by
      unfold Graph.calculateConnectionsTraced
      simp only [if_neg hn]
    rw [htr] at hfst
    refine ⟨g, Trace.mk [] [], htr, hfst.symm, ?_, ?_, ?_⟩
    · intro c
      have hc : ¬ (c.innerIndex < c.outerIndex ∧ g.points[c.outerIndex]? = some c.a ∧
          g.points[c.innerIndex]? = some c.b) := by
        rintro ⟨h1, h2, _⟩
        have := getElem?_some_lt g.points _ _ h2
        omega
      rw [if_neg hc]
      rfl
    · have h01 : g.points.length = 0 ∨ g.points.length = 1 := by omega
      rcases h01 with h0 | h1
      · rw [h0]; rfl
      · rw [h1]; rfl
    · intro w hw
      exact absurd hw (List.not_mem_nil w)

/-- C15: in every reachable state no operation fails — the constructor,
`addPoint`, `removePoint`, `removePointsByCriteria` and `move` all return —
and every write `connections[outerIndex][innerIndex]` of the recomputation
targets an existing row and a slot within its length, both in `move()`, which
recomputes on the matrix as it is, and in the recomputation after
`initConnections` that the other operations run. -/
theorem C15_writes_in_bounds {α : Type} (M : JsMath α) (g : Graph α) (h : Reachable M g) :
    (∃ g', g.move M = some g') ∧
      (∀ p, ∃ g', g.addPoint p = some g') ∧
      (∀ p, ∃ g', g.removePoint p = some g') ∧
      (∀ criteriaFn, ∃ g', g.removePointsByCriteria criteriaFn = some g') ∧
      (∀ heap points connectionFn, ∃ g0 : Graph α, Graph.new heap points connectionFn = some g0) ∧
      (∃ g' tr, g.moveTraced M = some (g', tr) ∧ g.move M = some g' ∧
        ∀ w ∈ tr.writes, w.outerIndex < w.rows ∧
          ∃ len, w.rowLength = some len ∧ w.innerIndex < len) ∧
      ∀ s : Graph α, ∃ g' tr, s.initConnections.calculateConnectionsTraced = some (g', tr) ∧
        s.initConnections.calculateConnections = some g' ∧
        ∀ w ∈ tr.writes, w.outerIndex < w.rows ∧
          ∃ len, w.rowLength = some len ∧ w.innerIndex < len := by
  have hc := h.canonical
  refine ⟨?_, ?_, ?_, ?_, ?_, ?_, ?_⟩
  · obtain ⟨g', hg', _⟩ := Graph.move_canonical M g hc
    exact ⟨g', hg'⟩
  · intro p
    obtain ⟨g', hg', _⟩ := Graph.addPoint_spec g p
    exact ⟨g', hg'⟩
  · intro p
    obtain ⟨g', hg', _⟩ := Graph.removePoint_spec g p
    exact ⟨g', hg'⟩
  · intro criteriaFn
    obtain ⟨g', hg', _⟩ := Graph.removePointsByCriteria_spec g criteriaFn
    exact ⟨g', hg'⟩
  · intro heap points connectionFn
    obtain ⟨g0, hg0, _⟩ := Graph.new_spec heap points connectionFn
    exact ⟨g0, hg0⟩
  · obtain ⟨h1, _, h3, _⟩ := Graph.move_loop M g.points 0 g
    have hsq1 : (forEachFrom (fun (s : Graph α) point _ =>
        { s with heap := s.heap.set point (Point.move M (s.heap point)) }) g.points 0
          g).connections.Square (forEachFrom (fun (s : Graph α) point _ =>
        { s with heap := s.heap.set point (Point.move M (s.heap point)) }) g.points 0
          g).points.length := by
      rw [h1, h3]; exact hc.1
    obtain ⟨g', tr, htr, hcalc, _, _, hwr⟩ := Graph.calculateConnectionsTraced_spec _ hsq1
    exact ⟨g', tr, htr, hcalc, hwr⟩
  · intro s
    have hf0 := (Graph.initConnections_spec s).1
    have hsq0 : s.initConnections.connections.Square s.initConnections.points.length := by
      rw [hf0.2.1]; exact Graph.initConnections_square s
    obtain ⟨g', tr, htr, hcalc, _, _, hwr⟩ :=
      Graph.calculateConnectionsTraced_spec s.initConnections hsq0
    exact ⟨g', tr, htr, hcalc, hwr⟩

/-- C15 at the graph of the points A, B, C. -/
theorem C15_writes_in_bounds_witness :
    Reachable exampleMath graphABC ∧
      ((∃ g', graphABC.move exampleMath = some g') ∧
        (∀ p, ∃ g', graphABC.addPoint p = some g') ∧
        (∀ p, ∃ g', graphABC.removePoint p = some g') ∧
        (∀ criteriaFn, ∃ g', graphABC.removePointsByCriteria criteriaFn = some g') ∧
        (∀ heap points connectionFn,
          ∃ g0 : Graph Int, Graph.new heap points connectionFn = some g0) ∧
        (∃ g' tr, graphABC.moveTraced exampleMath = some (g', tr) ∧
          graphABC.move exampleMath = some g' ∧
          ∀ w ∈ tr.writes, w.outerIndex < w.rows ∧
            ∃ len, w.rowLength = some len ∧ w.innerIndex < len) ∧
        ∀ s : Graph Int, ∃ g' tr, s.initConnections.calculateConnectionsTraced = some (g', tr) ∧
          s.initConnections.calculateConnections = some g' ∧
          ∀ w ∈ tr.writes, w.outerIndex < w.rows ∧
            ∃ len, w.rowLength = some len ∧ w.innerIndex < len) :=
  ⟨Reachable.addPoint graphAB 5 graphABC
      (Reachable.new exampleHeap (some [0, 1]) (some exampleFn) graphAB rfl) rfl,
    C15_writes_in_bounds exampleMath graphABC
      (Reachable.addPoint graphAB 5 graphABC
        (Reachable.new exampleHeap (some [0, 1]) (some exampleFn) graphAB rfl) rfl)⟩

/-- C17: one run of `calculateConnections` on a matrix square of side
`n = points.length` returns, and it evaluates the predicate exactly once for
every pair of indices `j < i < n`, on `(points[i], points[j])`, and for
nothing else (never with `i = j`): `n (n - 1) / 2` calls in all, none when
there are fewer than two points. -/
theorem C17_predicate_calls {α : Type} (g : Graph α)
    (hsq : g.connections.Square g.points.length) :
    ∃ g' tr, g.calculateConnectionsTraced = some (g', tr) ∧
      g.calculateConnections = some g' ∧
      (∀ c : Call, tr.calls.count c =
        if c.innerIndex < c.outerIndex ∧ g.points[c.outerIndex]? = some c.a ∧
            g.points[c.innerIndex]? = some c.b
        then 1 else 0) ∧
      tr.calls.length = g.points.length * (g.points.length - 1) / 2 ∧
      (∀ c ∈ tr.calls, c.innerIndex ≠ c.outerIndex) ∧
      (g.points.length < 2 → tr.calls = []) := by
  obtain ⟨g', tr, htr, hcalc, hcnt, hlen, _⟩ := Graph.calculateConnectionsTraced_spec g hsq
  have hlen2 : tr.calls.length = g.points.length * (g.points.length - 1) / 2 := by
    generalize g.points.length * (g.points.length - 1) = N at hlen
    omega
  refine ⟨g', tr, htr, hcalc, hcnt, hlen2, ?_, ?_⟩
  · intro c hmem heq
    have hpos : 0 < tr.calls.count c := List.count_pos_iff.mpr hmem
    rw [hcnt c] at hpos
    have hc : ¬ (c.innerIndex < c.outerIndex ∧ g.points[c.outerIndex]? = some c.a ∧
        g.points[c.innerIndex]? = some c.b) := by
      rintro ⟨h1, _, _⟩
      omega
    rw [if_neg hc] at hpos
    exact Nat.lt_irrefl 0 hpos
  · intro hlt
    apply List.eq_nil_of_length_eq_zero
    rw [hlen2]
    have h01 : g.points.length = 0 ∨ g.points.length = 1 := by omega
    rcases h01 with h0 | h1
    · rw [h0]
    · rw [h1]

/-- C17 at the graph of the points A, B, C: three calls. -/
theorem C17_predicate_calls_witness :
    graphABC.connections.Square graphABC.points.length ∧
      ∃ g' tr, graphABC.calculateConnectionsTraced = some (g', tr) ∧
        graphABC.calculateConnections = some g' ∧
        (∀ c : Call, tr.calls.count c =
          if c.innerIndex < c.outerIndex ∧ graphABC.points[c.outerIndex]? = some c.a ∧
              graphABC.points[c.innerIndex]? = some c.b
          then 1 else 0) ∧
        tr.calls.length = graphABC.points.length * (graphABC.points.length - 1) / 2 ∧
        (∀ c ∈ tr.calls, c.innerIndex ≠ c.outerIndex) ∧
        (graphABC.points.length < 2 → tr.calls = []) :=
  ⟨by decide, C17_predicate_calls graphABC (by decide)⟩

/-! ## Doubles -/

theorem Dbl.twos_dvd (fuel n : Nat) : 2 ^ Dbl.twos fuel n ∣ n := by
  induction fuel generalizing n with
  | zero => simp [Dbl.twos]
  | succ k ih =>
    unfold Dbl.twos
    split
    · next h =>
      obtain ⟨c, hc⟩ := ih (n / 2)
      refine ⟨c, ?_⟩
      have h2 : n = 2 * (n / 2) := by omega
      rw [pow_succ, mul_comm (2 ^ _) 2, mul_assoc, ← hc]
      exact h2
    · simp

theorem Dbl.norm_spec (m e : Int) :
    ∃ t : Nat, (Dbl.norm m e).expo = (if m = 0 then 0 else e + t) ∧ (Dbl.norm m e).mant * 2 ^ t = m := by
  unfold Dbl.norm
  by_cases hm : m = 0
  · exact ⟨0, by simp [hm], by simp [hm]⟩
  · simp only [hm, if_false]
    refine ⟨Dbl.twos m.natAbs m.natAbs, rfl, ?_⟩
    have hd := Dbl.twos_dvd m.natAbs m.natAbs
    have h1 : ((m.natAbs / 2 ^ Dbl.twos m.natAbs m.natAbs : Nat) : Int) *
        2 ^ Dbl.twos m.natAbs m.natAbs = (m.natAbs : Int) := by
      have := Nat.div_mul_cancel hd
      exact_mod_cast this
    rw [mul_assoc, h1]
    exact Int.sign_mul_natAbs m

theorem Dbl.norm_toRat (m e : Int) : (Dbl.norm m e).toRat = (m : ℚ) * (2 : ℚ) ^ e := by
  obtain ⟨t, h1, h2⟩ := Dbl.norm_spec m e
  unfold Dbl.toRat
  by_cases hm : m = 0
  · subst hm
    simp [Dbl.norm]
  · rw [h1, if_neg hm, zpow_add₀ (two_ne_zero), zpow_natCast]
    have h3 : ((Dbl.norm m e).mant : ℚ) * (2 : ℚ) ^ t = (m : ℚ) := by exact_mod_cast h2
    rw [← h3]
    ring

theorem Dbl.round_small (m e : Int) (h : m.natAbs < 2 ^ 53) : Dbl.round m e = Dbl.norm m e := by
  unfold Dbl.round
  simp only [h, if_true]

theorem Dbl.ofInt_spec (n : Int) (h : n.natAbs < 2 ^ 53) :
    ∃ t : Nat, (Dbl.ofInt n).expo = (t : Int) ∧ (Dbl.ofInt n).mant * 2 ^ t = n := by
  unfold Dbl.ofInt
  rw [Dbl.round_small n 0 h]
  obtain ⟨t, h1, h2⟩ := Dbl.norm_spec n 0
  by_cases hn : n = 0
  · refine ⟨0, ?_, ?_⟩
    · rw [h1, if_pos hn]
      rfl
    · subst hn
      simp [Dbl.norm]
  · refine ⟨t, ?_, h2⟩
    rw [h1, if_neg hn, zero_add]

theorem Dbl.ofInt_toRat (n : Int) (h : n.natAbs < 2 ^ 53) : (Dbl.ofInt n).toRat = (n : ℚ) := by
  unfold Dbl.ofInt
  rw [Dbl.round_small n 0 h, Dbl.norm_toRat]
  simp

theorem Dbl.add_ofInt (a b : Int) (ha : a.natAbs < 2 ^ 53) (hb : b.natAbs < 2 ^ 53)
    (hab : (a + b).natAbs < 2 ^ 53) :
    (Dbl.add (Dbl.ofInt a) (Dbl.ofInt b)).toRat = (a : ℚ) + (b : ℚ) := by
  obtain ⟨s, hs1, hs2⟩ := Dbl.ofInt_spec a ha
  obtain ⟨t, ht1, ht2⟩ := Dbl.ofInt_spec b hb
  unfold Dbl.add
  simp only [hs1, ht1]
  have hmin : min (s : Int) (t : Int) = ((min s t : Nat) : Int) := by
    rcases Nat.le_total s t with h | h
    · rw [Nat.min_eq_left h, min_eq_left (by exact_mod_cast h)]
    · rw [Nat.min_eq_right h, min_eq_right (by exact_mod_cast h)]
  rw [hmin]
  have e1 : ((s : Int) - ((min s t : Nat) : Int)).toNat = s - min s t := by omega
  have e2 : ((t : Int) - ((min s t : Nat) : Int)).toNat = t - min s t := by omega
  rw [e1, e2]
  have hX : ((Dbl.ofInt a).mant * 2 ^ (s - min s t) + (Dbl.ofInt b).mant * 2 ^ (t - min s t)) *
      2 ^ (min s t) = a + b := by
    have p1 : s - min s t + min s t = s := by omega
    have p2 : t - min s t + min s t = t := by omega
    rw [add_mul, mul_assoc, mul_assoc, ← pow_add, ← pow_add, p1, p2, hs2, ht2]
  have hsmall : ((Dbl.ofInt a).mant * 2 ^ (s - min s t) +
      (Dbl.ofInt b).mant * 2 ^ (t - min s t)).natAbs < 2 ^ 53 := by
    have h1 := congrArg Int.natAbs hX
    rw [Int.natAbs_mul, Int.natAbs_pow] at h1
    have h2 : 1 ≤ (2 : Int).natAbs ^ min s t := Nat.one_le_pow _ _ (by decide)
    calc _ ≤ _ * (2 : Int).natAbs ^ min s t := Nat.le_mul_of_pos_right _ h2
      _ = (a + b).natAbs := h1
      _ < 2 ^ 53 := hab
  rw [Dbl.round_small _ _ hsmall, Dbl.norm_toRat]
  have hq : (((Dbl.ofInt a).mant * 2 ^ (s - min s t) +
      (Dbl.ofInt b).mant * 2 ^ (t - min s t) : Int) : ℚ) * (2 : ℚ) ^ (min s t) =
      (a : ℚ) + (b : ℚ) := by exact_mod_cast hX
  rw [zpow_natCast]
  exact hq

theorem Dbl.lt_bitsFuel (fuel n : Nat) (h : n ≤ fuel) : n < 2 ^ Dbl.bitsFuel fuel n := by
  induction fuel generalizing n with
  | zero =>
    have h0 : n = 0 := by omega
    subst h0
    simp [Dbl.bitsFuel]
  | succ k ih =>
    unfold Dbl.bitsFuel
    split
    · next h0 => subst h0; simp
    · next h0 =>
      have h1 := ih (n / 2) (by omega)
      rw [pow_succ]
      omega

theorem Dbl.bitsFuel_le (fuel n : Nat) (h : n ≠ 0) : 2 ^ Dbl.bitsFuel fuel n ≤ 2 * n := by
  induction fuel generalizing n with
  | zero =>
    simp only [Dbl.bitsFuel, pow_zero]
    omega
  | succ k ih =>
    unfold Dbl.bitsFuel
    rw [if_neg h, pow_succ]
    by_cases h2 : n / 2 = 0
    · rw [h2]
      have : Dbl.bitsFuel k 0 = 0 := by cases k <;> simp [Dbl.bitsFuel]
      rw [this]
      omega
    · have h1 := ih (n / 2) h2
      omega

theorem Dbl.lt_bits (n : Nat) : n < 2 ^ Dbl.bits n := Dbl.lt_bitsFuel n n (Nat.le_refl n)

theorem Dbl.bits_le (n : Nat) (h : n ≠ 0) : 2 ^ Dbl.bits n ≤ 2 * n := Dbl.bitsFuel_le n n h

theorem Dbl.isqrtBits_spec (bits n acc : Nat) (h1 : acc * acc ≤ n)
    (h2 : n < (acc + 2 ^ bits) * (acc + 2 ^ bits)) :
    Dbl.isqrtBits bits n acc * Dbl.isqrtBits bits n acc ≤ n ∧
      n < (Dbl.isqrtBits bits n acc + 1) * (Dbl.isqrtBits bits n acc + 1) := by
  induction bits generalizing acc with
  | zero =>
    simp only [Dbl.isqrtBits]
    simpa using ⟨h1, h2⟩
  | succ k ih =>
    unfold Dbl.isqrtBits
    split
    · next h =>
      apply ih _ h
      have e : acc + 2 ^ k + 2 ^ k = acc + 2 ^ (k + 1) := by rw [pow_succ]; omega
      rw [e]
      exact h2
    · next h =>
      exact ih _ h1 (by omega)

theorem Dbl.isqrt_spec (n : Nat) :
    Dbl.isqrt n * Dbl.isqrt n ≤ n ∧ n < (Dbl.isqrt n + 1) * (Dbl.isqrt n + 1) := by
  unfold Dbl.isqrt
  apply Dbl.isqrtBits_spec
  · simp
  · have h := Dbl.lt_bits n
    have h2 : Dbl.bits n ≤ (Dbl.bits n / 2 + 1) + (Dbl.bits n / 2 + 1) := by omega
    calc n < 2 ^ Dbl.bits n := h
      _ ≤ 2 ^ ((Dbl.bits n / 2 + 1) + (Dbl.bits n / 2 + 1)) := Nat.pow_le_pow_right (by decide) h2
      _ = (0 + 2 ^ (Dbl.bits n / 2 + 1)) * (0 + 2 ^ (Dbl.bits n / 2 + 1)) := by
        rw [pow_add]; simp

theorem Dbl.round_pick (X P Q R : Nat) (h1 : 2 * P * Q + R = X) (h2 : R < 2 * P) :
    (if R < P then Q else if P < R then Q + 1 else if Q % 2 = 0 then Q else Q + 1) * (2 * P) ≤
        X + P ∧
      X ≤ (if R < P then Q else if P < R then Q + 1 else if Q % 2 = 0 then Q else Q + 1) *
        (2 * P) + P := by
  have e1 : (Q + 1) * (2 * P) = 2 * P * Q + 2 * P := by ring
  have e2 : Q * (2 * P) = 2 * P * Q := by ring
  generalize 2 * P * Q = A at *
  split_ifs <;> simp only [e1, e2] <;> omega

theorem Dbl.round_spec (X : Nat) (E : Int) (hX : 2 ^ 53 ≤ X) :
    ∃ q s : Nat, (Dbl.round (X : Int) E).toRat = (q : ℚ) * (2 : ℚ) ^ (E + (s + 1 : Nat)) ∧
      2 ^ (s + 53) ≤ X ∧ X < 2 ^ (s + 54) ∧
      q * 2 ^ (s + 1) ≤ X + 2 ^ s ∧ X ≤ q * 2 ^ (s + 1) + 2 ^ s := by
  have hb1 := Dbl.lt_bits X
  have hb2 := Dbl.bits_le X (by omega)
  have hbits : 54 ≤ Dbl.bits X := by
    by_contra hc
    have : Dbl.bits X ≤ 53 := by omega
    have := Nat.pow_le_pow_right (show 0 < 2 by decide) this
    omega
  obtain ⟨s, hs⟩ : ∃ s, Dbl.bits X = s + 54 := ⟨Dbl.bits X - 54, by omega⟩
  unfold Dbl.round
  have hn : ¬ (X < 2 ^ 53) := by omega
  have hsign : (X : Int).sign = 1 := by
    apply Int.sign_eq_one_of_pos
    have : 0 < X := by
      have := Nat.pos_pow_of_pos 53 (show 0 < 2 by decide)
      omega
    exact_mod_cast this
  have hsh : s + 54 - 53 = s + 1 := by omega
  have hsh2 : s + 1 - 1 = s := by omega
  simp only [Int.natAbs_ofNat, hs, hsh, hsh2, hsign, one_mul, if_neg hn]
  have hdm := Nat.div_add_mod X (2 ^ (s + 1))
  have hml : X % 2 ^ (s + 1) < 2 ^ (s + 1) := Nat.mod_lt _ (Nat.pos_pow_of_pos _ (by decide))
  have hp : 2 ^ (s + 1) = 2 * 2 ^ s := by rw [pow_succ]; omega
  have hlo : 2 ^ (s + 53) ≤ X := by
    rw [hs] at hb2
    have : 2 ^ (s + 54) = 2 * 2 ^ (s + 53) := by rw [pow_succ]; omega
    omega
  have hhi : X < 2 ^ (s + 54) := by rw [hs] at hb1; exact hb1
  have hpick := Dbl.round_pick X (2 ^ s) (X / 2 ^ (s + 1)) (X % 2 ^ (s + 1))
    (by rw [← hp]; exact hdm) (by rw [← hp]; exact hml)
  rw [← hp] at hpick
  generalize (if X % 2 ^ (s + 1) < 2 ^ s then X / 2 ^ (s + 1)
    else if 2 ^ s < X % 2 ^ (s + 1) then X / 2 ^ (s + 1) + 1
    else if X / 2 ^ (s + 1) % 2 = 0 then X / 2 ^ (s + 1) else X / 2 ^ (s + 1) + 1) = q1 at *
  refine ⟨q1, s, ?_, hlo, hhi, hpick.1, hpick.2⟩
  rw [Dbl.norm_toRat, Int.cast_natCast]

theorem Dbl.lt_spec (a b : Dbl) : Dbl.lt a b = decide (a.toRat < b.toRat) := by
  unfold Dbl.lt Dbl.toRat
  apply decide_eq_decide.mpr
  have ha : 0 ≤ a.expo - min a.expo b.expo := by
    have := min_le_left a.expo b.expo
    omega
  have hb : 0 ≤ b.expo - min a.expo b.expo := by
    have := min_le_right a.expo b.expo
    omega
  generalize min a.expo b.expo = e at *
  have hpos : (0 : ℚ) < (2 : ℚ) ^ e := zpow_pos (by norm_num) e
  have ea : (a.mant : ℚ) * (2 : ℚ) ^ a.expo =
      ((a.mant * 2 ^ (a.expo - e).toNat : Int) : ℚ) * (2 : ℚ) ^ e := by
    push_cast
    rw [mul_assoc, ← zpow_natCast, ← zpow_add₀ (by norm_num : (2 : ℚ) ≠ 0), Int.toNat_of_nonneg ha]
    congr 2
    omega
  have eb : (b.mant : ℚ) * (2 : ℚ) ^ b.expo =
      ((b.mant * 2 ^ (b.expo - e).toNat : Int) : ℚ) * (2 : ℚ) ^ e := by
    push_cast
    rw [mul_assoc, ← zpow_natCast, ← zpow_add₀ (by norm_num : (2 : ℚ) ≠ 0), Int.toNat_of_nonneg hb]
    congr 2
    omega
  rw [ea, eb, mul_lt_mul_right hpos]
  exact Int.cast_lt.symm

set_option maxHeartbeats 1000000 in
theorem Dbl.sqrt_key (m2 w f sticky q s X : Nat) (hm2 : 0 < m2)
    (hf1 : f * f ≤ m2 * 2 ^ 128) (hf2 : m2 * 2 ^ 128 < (f + 1) * (f + 1))
    (hst : sticky = if f * f = m2 * 2 ^ 128 then 0 else 1) (hX : X = 2 * f + sticky)
    (hlo : 2 ^ (s + 53) ≤ X) (hq1 : q * 2 ^ (s + 1) ≤ X + 2 ^ s)
    (hq2 : X ≤ q * 2 ^ (s + 1) + 2 ^ s) :
    q * 2 ^ (s + 1) * 2 ^ w < 200 * 2 ^ 65 ↔ m2 * (2 ^ w * 2 ^ w) < 40000 := by
  have hT : 2 ^ s * 2 ^ w = 2 ^ (s + w) := (pow_add 2 s w).symm
  have hS1 : 2 ^ (s + 1) = 2 * 2 ^ s := by rw [pow_succ]; omega
  have hS53 : 2 ^ (s + 53) = 2 ^ s * 2 ^ 53 := pow_add 2 s 53
  have hWpos : 0 < 2 ^ w := Nat.pos_pow_of_pos w (by decide)
  have hSpos : 0 < 2 ^ s := Nat.pos_pow_of_pos s (by decide)
  rw [hS1] at hq1 hq2 ⊢
  rw [hS53] at hlo
  generalize 2 ^ w = W at *
  generalize 2 ^ s = S at *
  have hst1 : sticky ≤ 1 := by rw [hst]; split <;> omega
  constructor
  · intro hlt
    by_contra hge
    have hge : 40000 ≤ m2 * (W * W) := by omega
    -- the square root is at least 200
    have h1 : 200 * 2 ^ 64 < (f + 1) * W := by
      by_contra hc
      have hc : (f + 1) * W ≤ 200 * 2 ^ 64 := by omega
      have h2 := Nat.mul_le_mul hc hc
      have h3 : ((f + 1) * W) * ((f + 1) * W) = ((f + 1) * (f + 1)) * (W * W) := by ring
      have h4 : m2 * 2 ^ 128 * (W * W) < (f + 1) * (f + 1) * (W * W) :=
        Nat.mul_lt_mul_of_pos_right hf2 (Nat.mul_pos hWpos hWpos)
      have h5 : m2 * 2 ^ 128 * (W * W) = m2 * (W * W) * 2 ^ 128 := by ring
      have h6 := Nat.mul_le_mul_right (2 ^ 128) hge
      rw [h3] at h2
      rw [h5] at h4
      norm_num at h2 h4 h6
      omega
    have h7 : 200 * 2 ^ 65 < X * W + W := by
      by_cases hex : f * f = m2 * 2 ^ 128
      · rw [if_pos hex] at hst
        have h8 : 200 * 2 ^ 64 ≤ f * W := by
          by_contra hc
          have hc : f * W + 1 ≤ 200 * 2 ^ 64 := by omega
          have h2 := Nat.mul_le_mul hc hc
          have h3 : (f * W + 1) * (f * W + 1) = (f * f) * (W * W) + 2 * (f * W) + 1 := by ring
          have h5 : f * f * (W * W) = m2 * (W * W) * 2 ^ 128 := by rw [hex]; ring
          have h6 := Nat.mul_le_mul_right (2 ^ 128) hge
          rw [h3, h5] at h2
          norm_num at h2 h6
          omega
        have h9 : X * W = 2 * (f * W) := by rw [hX, hst]; ring
        omega
      · rw [if_neg hex] at hst
        have h9 : X * W + W = 2 * ((f + 1) * W) := by rw [hX, hst]; ring
        omega
    have h10 := Nat.mul_le_mul_right W hq2
    have h11 : (q * (2 * S) + S) * W = q * (2 * S) * W + S * W := by ring
    rw [h11] at h10
    have hWT : W ≤ S * W := Nat.le_mul_of_pos_left W hSpos
    have h12 : q * (2 * S) * W = q * (2 * (S * W)) := by ring
    rw [h12] at h10 hlt
    by_cases hsw : s + w + 1 ≤ 68
    · obtain ⟨d, hd⟩ : ∃ d, s + w + d + 1 = 68 := ⟨68 - (s + w + 1), by omega⟩
      have h13 : 2 * (S * W) * 2 ^ d = 2 ^ 68 := by
        calc 2 * (S * W) * 2 ^ d = 2 ^ (s + w + d + 1) := by rw [hT]; ring
          _ = 2 ^ 68 := by rw [hd]
      have h14 : 25 * 2 ^ d * (2 * (S * W)) < (q + 1) * (2 * (S * W)) := by
        have e1 : 25 * 2 ^ d * (2 * (S * W)) = 25 * (2 * (S * W) * 2 ^ d) := by ring
        have e2 : (q + 1) * (2 * (S * W)) = q * (2 * (S * W)) + 2 * (S * W) := by ring
        rw [e1, h13, e2]
        norm_num
        norm_num at h7
        omega
      have h15 : 25 * 2 ^ d < q + 1 := Nat.lt_of_mul_lt_mul_right h14
      have h16 : 25 * 2 ^ d * (2 * (S * W)) ≤ q * (2 * (S * W)) :=
        Nat.mul_le_mul_right _ (by omega)
      have e1 : 25 * 2 ^ d * (2 * (S * W)) = 25 * (2 * (S * W) * 2 ^ d) := by ring
      rw [e1, h13] at h16
      norm_num at h16 hlt
      omega
    · have h13 : 2 ^ 68 ≤ S * W := by
        rw [hT]
        exact Nat.pow_le_pow_right (by decide) (by omega)
      have h14 : S * 2 ^ 52 ≤ q * (2 * S) := by
        have : S * 2 ^ 53 = 2 * (S * 2 ^ 52) := by ring
        have e3 : S * 2 ^ 52 = 2 ^ 52 * S := by ring
        norm_num at e3 this hlo
        omega
      have h15 := Nat.mul_le_mul_right W h14
      have e1 : S * 2 ^ 52 * W = S * W * 2 ^ 52 := by ring
      have e2 : q * (2 * S) * W = q * (2 * (S * W)) := by ring
      rw [e1, e2] at h15
      have h16 := Nat.mul_le_mul_right (2 ^ 52) h13
      norm_num at h15 h16 hlt
      omega
  · intro hlt
    have hle : m2 * (W * W) ≤ 39999 := by omega
    have hF : (f * W) * (f * W) ≤ 39999 * 2 ^ 128 := by
      have e1 : (f * W) * (f * W) = (f * f) * (W * W) := by ring
      have e2 : m2 * 2 ^ 128 * (W * W) = m2 * (W * W) * 2 ^ 128 := by ring
      rw [e1]
      calc f * f * (W * W) ≤ m2 * 2 ^ 128 * (W * W) := Nat.mul_le_mul_right _ hf1
        _ = m2 * (W * W) * 2 ^ 128 := e2
        _ ≤ 39999 * 2 ^ 128 := Nat.mul_le_mul_right _ hle
    have hFG : f * W < 100 * 2 ^ 65 - 2 ^ 20 := by
      by_contra hc
      have hc : 100 * 2 ^ 65 - 2 ^ 20 ≤ f * W := by omega
      have h2 := Nat.mul_le_mul hc hc
      norm_num at h2 hF
      omega
    have hW200 : W < 200 := by
      by_contra hc
      have hc : 200 ≤ W := by omega
      have h2 := Nat.mul_le_mul hc hc
      have h3 : W * W ≤ m2 * (W * W) := Nat.le_mul_of_pos_left _ hm2
      omega
    have hSW : S * W < 2 ^ 20 := by
      have h1 := Nat.mul_le_mul_right W hlo
      have e1 : S * 2 ^ 53 * W = S * W * 2 ^ 53 := by ring
      have e2 : X * W = 2 * (f * W) + sticky * W := by rw [hX]; ring
      have h3 : sticky * W ≤ W := by
        calc sticky * W ≤ 1 * W := Nat.mul_le_mul_right W hst1
          _ = W := one_mul W
      rw [e1, e2] at h1
      norm_num at h1 hFG ⊢
      omega
    have h1 := Nat.mul_le_mul_right W hq1
    have e1 : (X + S) * W = 2 * (f * W) + sticky * W + S * W := by rw [hX]; ring
    have h3 : sticky * W ≤ W := by
      calc sticky * W ≤ 1 * W := Nat.mul_le_mul_right W hst1
        _ = W := one_mul W
    rw [e1] at h1
    norm_num at hFG hSW ⊢
    omega

theorem Dbl.lit_toRat (n : Nat) (h : n < 2 ^ 53) : (Dbl.lit n).toRat = (n : ℚ) := by
  unfold Dbl.lit
  rw [Dbl.ofInt_toRat _ (by rw [Int.natAbs_ofNat]; exact h)]
  simp

theorem Dbl.scaled_lt (q s w : Nat) :
    (q : ℚ) * (2 : ℚ) ^ ((w : Int) - 65 + ((s + 1 : Nat) : Int)) < 200 ↔
      q * 2 ^ (s + 1) * 2 ^ w < 200 * 2 ^ 65 := by
  have h2 : (2 : ℚ) ≠ 0 := by norm_num
  have e : (q : ℚ) * (2 : ℚ) ^ ((w : Int) - 65 + ((s + 1 : Nat) : Int)) =
      ((q * 2 ^ (s + 1) * 2 ^ w : Nat) : ℚ) / 2 ^ 65 := by
    rw [zpow_add₀ h2, zpow_sub₀ h2, zpow_natCast, zpow_natCast]
    push_cast
    have : (2 : ℚ) ^ (65 : Int) = 2 ^ 65 := by norm_cast
    rw [this]
    ring
  rw [e, div_lt_iff₀ (by positivity)]
  have e2 : (200 : ℚ) * 2 ^ 65 = ((200 * 2 ^ 65 : Nat) : ℚ) := by norm_num
  rw [e2]
  exact Nat.cast_lt

theorem Dbl.sqrt_round (m2 w : Nat) (v : Int) (hm2 : 0 < m2)
    (hv : (m2 : Int) * (2 ^ w * 2 ^ w) = v) :
    decide ((Dbl.round
      ((2 * Dbl.isqrt (m2 * 2 ^ 128) +
        (if Dbl.isqrt (m2 * 2 ^ 128) * Dbl.isqrt (m2 * 2 ^ 128) = m2 * 2 ^ 128 then 0 else 1 : Nat)
          : Nat) : Int) ((w : Int) - 65)).toRat < 200) = decide (v < 40000) := by
  obtain ⟨hf1, hf2⟩ := Dbl.isqrt_spec (m2 * 2 ^ 128)
  generalize Dbl.isqrt (m2 * 2 ^ 128) = f at *
  have hf : 2 ^ 64 ≤ f := by
    by_contra hc
    have hc : f + 1 ≤ 2 ^ 64 := by omega
    have h2 := Nat.mul_le_mul hc hc
    have h3 : 1 * 2 ^ 128 ≤ m2 * 2 ^ 128 := Nat.mul_le_mul_right _ hm2
    norm_num at h2 h3
    omega
  obtain ⟨q, s, hr, hlo, _, hq1, hq2⟩ := Dbl.round_spec
    (2 * f + (if f * f = m2 * 2 ^ 128 then 0 else 1)) ((w : Int) - 65) (by omega)
  rw [hr]
  apply decide_eq_decide.mpr
  rw [Dbl.scaled_lt, Dbl.sqrt_key m2 w f _ q s _ hm2 hf1 hf2 rfl rfl hlo hq1 hq2, ← hv]
  constructor
  · intro h
    exact_mod_cast h
  · intro h
    exact_mod_cast h

theorem Dbl.sqrt_lt (a : Dbl) (v : Int) (ha : Dbl.IsInt a v) (hv : 0 ≤ v) :
    Dbl.lt (Dbl.sqrt a) (Dbl.lit 200) = decide (v < 40000) := by
  obtain ⟨t, ht, hm⟩ := ha
  rw [Dbl.lt_spec, Dbl.lit_toRat 200 (by norm_num)]
  obtain ⟨mant, expo⟩ := a
  simp only at ht hm
  subst ht
  unfold Dbl.sqrt
  simp only
  have hp : (0 : Int) < 2 ^ t := by positivity
  by_cases hpos : mant ≤ 0
  · rw [if_pos hpos]
    have hv0 : v = 0 := by
      have : mant * 2 ^ t ≤ 0 := mul_nonpos_of_nonpos_of_nonneg hpos (le_of_lt hp)
      omega
    subst hv0
    simp [Dbl.toRat]
  · rw [if_neg hpos]
    obtain ⟨m, rfl⟩ := Int.eq_ofNat_of_zero_le (by omega : 0 ≤ mant)
    have hm0 : 0 < m := by omega
    rw [Int.toNat_ofNat]
    by_cases hpar : (t : Int) % 2 = 0
    · simp only [if_pos hpar]
      obtain ⟨w, hw⟩ : ∃ w, t = 2 * w := ⟨t / 2, by omega⟩
      have hE : ((t : Int) - 128) / 2 - 1 = (w : Int) - 65 := by omega
      rw [hE]
      apply Dbl.sqrt_round m w v hm0
      rw [← hm, hw, ← pow_add]
      congr 2
      omega
    · simp only [if_neg hpar]
      obtain ⟨w, hw⟩ : ∃ w, t = 2 * w + 1 := ⟨t / 2, by omega⟩
      have hE : ((t : Int) - 1 - 128) / 2 - 1 = (w : Int) - 65 := by omega
      rw [hE]
      apply Dbl.sqrt_round (2 * m) w v (by omega)
      rw [← hm, hw, ← pow_add]
      push_cast
      rw [pow_succ]
      have : w + w = 2 * w := by omega
      rw [this]
      ring

theorem Dbl.isInt_round (X : Int) (e : Nat) (n : Int) (h : X * 2 ^ e = n)
    (hn : n.natAbs < 2 ^ 53) : Dbl.IsInt (Dbl.round X (e : Int)) n := by
  have hsmall : X.natAbs < 2 ^ 53 := by
    have h1 := congrArg Int.natAbs h
    rw [Int.natAbs_mul, Int.natAbs_pow] at h1
    have h2 : 1 ≤ (2 : Int).natAbs ^ e := Nat.one_le_pow _ _ (by decide)
    calc _ ≤ _ * (2 : Int).natAbs ^ e := Nat.le_mul_of_pos_right _ h2
      _ = n.natAbs := h1
      _ < 2 ^ 53 := hn
  rw [Dbl.round_small _ _ hsmall]
  obtain ⟨t, h1, h2⟩ := Dbl.norm_spec X (e : Int)
  by_cases hX : X = 0
  · refine ⟨0, ?_, ?_⟩
    · rw [h1, if_pos hX]
      rfl
    · subst hX
      rw [← h]
      simp [Dbl.norm]
  · refine ⟨e + t, ?_, ?_⟩
    · rw [h1, if_neg hX]
      push_cast
      rfl
    · rw [← h]
      calc (Dbl.norm X (e : Int)).mant * 2 ^ (e + t)
          = (Dbl.norm X (e : Int)).mant * 2 ^ t * 2 ^ e := by ring
        _ = X * 2 ^ e := by rw [h2]

theorem Dbl.isInt_ofInt (n : Int) (h : n.natAbs < 2 ^ 53) : Dbl.IsInt (Dbl.ofInt n) n := by
  unfold Dbl.ofInt
  have := Dbl.isInt_round n 0 n (by simp) h
  simpa using this

theorem Dbl.min_cast (s t : Nat) : min (s : Int) (t : Int) = ((min s t : Nat) : Int) := by
  rcases Nat.le_total s t with h | h
  · rw [Nat.min_eq_left h, min_eq_left (by exact_mod_cast h)]
  · rw [Nat.min_eq_right h, min_eq_right (by exact_mod_cast h)]

theorem Dbl.isInt_add (a b : Dbl) (x y : Int) (ha : Dbl.IsInt a x) (hb : Dbl.IsInt b y)
    (h : (x + y).natAbs < 2 ^ 53) : Dbl.IsInt (Dbl.add a b) (x + y) := by
  obtain ⟨s, hs1, hs2⟩ := ha
  obtain ⟨t, ht1, ht2⟩ := hb
  unfold Dbl.add
  simp only [hs1, ht1]
  rw [Dbl.min_cast]
  have e1 : ((s : Int) - ((min s t : Nat) : Int)).toNat = s - min s t := by omega
  have e2 : ((t : Int) - ((min s t : Nat) : Int)).toNat = t - min s t := by omega
  rw [e1, e2]
  apply Dbl.isInt_round _ _ _ _ h
  have p1 : s - min s t + min s t = s := by omega
  have p2 : t - min s t + min s t = t := by omega
  rw [add_mul, mul_assoc, mul_assoc, ← pow_add, ← pow_add, p1, p2, hs2, ht2]

theorem Dbl.isInt_sub (a b : Dbl) (x y : Int) (ha : Dbl.IsInt a x) (hb : Dbl.IsInt b y)
    (h : (x - y).natAbs < 2 ^ 53) : Dbl.IsInt (Dbl.sub a b) (x - y) := by
  obtain ⟨s, hs1, hs2⟩ := ha
  obtain ⟨t, ht1, ht2⟩ := hb
  unfold Dbl.sub
  simp only [hs1, ht1]
  rw [Dbl.min_cast]
  have e1 : ((s : Int) - ((min s t : Nat) : Int)).toNat = s - min s t := by omega
  have e2 : ((t : Int) - ((min s t : Nat) : Int)).toNat = t - min s t := by omega
  rw [e1, e2]
  apply Dbl.isInt_round _ _ _ _ h
  have p1 : s - min s t + min s t = s := by omega
  have p2 : t - min s t + min s t = t := by omega
  rw [sub_mul, mul_assoc, mul_assoc, ← pow_add, ← pow_add, p1, p2, hs2, ht2]

set_option maxRecDepth 100000 in
theorem Dbl.lit_two : Dbl.lit 2 = { mant := 1, expo := 1 } := by decide

theorem Dbl.isInt_pow_two (a : Dbl) (x : Int) (ha : Dbl.IsInt a x)
    (h : (x * x).natAbs < 2 ^ 53) : Dbl.IsInt (Dbl.pow a (Dbl.lit 2)) (x * x) := by
  obtain ⟨s, hs1, hs2⟩ := ha
  unfold Dbl.pow
  rw [Dbl.lit_two]
  simp only [hs1]
  have hc : (0 : Int) ≤ 1 ∧ (0 : Int) ≤ 1 := ⟨by decide, by decide⟩
  rw [if_pos hc]
  have e1 : (1 : Int).toNat * 2 ^ (1 : Int).toNat = 2 := by decide
  rw [e1]
  have e2 : (s : Int) * ((2 : Nat) : Int) = ((s * 2 : Nat) : Int) := by push_cast; rfl
  rw [e2]
  apply Dbl.isInt_round _ _ _ _ h
  rw [← hs2]
  ring

theorem Dbl.natAbs_lt_of_abs (x : Int) (n : Nat) (h : |x| < (n : Int)) : x.natAbs < n := by
  rw [Int.abs_eq_natAbs] at h
  exact_mod_cast h

theorem Dbl.square_bound (x y : Int) (hx : |x| < 2 ^ 25) (hy : |y| < 2 ^ 25) :
    (x - y).natAbs < 2 ^ 53 ∧ ((x - y) * (x - y)).natAbs < 2 ^ 52 := by
  have h1 := abs_lt.mp hx
  have h2 := abs_lt.mp hy
  have h3 : (x - y).natAbs < 2 ^ 26 := by omega
  refine ⟨by omega, ?_⟩
  rw [Int.natAbs_mul]
  have := Nat.mul_lt_mul'' h3 h3
  norm_num at this ⊢
  exact this

theorem demoConnectionFn_ofInt (cos sin : Dbl → Dbl) (h : Heap Dbl) (a b : Ref)
    (xa ya xb yb : Int) (hxa : (h a).x = Dbl.ofInt xa) (hya : (h a).y = Dbl.ofInt ya)
    (hxb : (h b).x = Dbl.ofInt xb) (hyb : (h b).y = Dbl.ofInt yb)
    (bxa : |xa| < 2 ^ 25) (bya : |ya| < 2 ^ 25) (bxb : |xb| < 2 ^ 25) (byb : |yb| < 2 ^ 25) :
    demoConnectionFn (Dbl.math cos sin) Dbl.compare h a b =
      decide ((xa - xb) ^ 2 + (ya - yb) ^ 2 < 200 ^ 2) := by
  have nxa : xa.natAbs < 2 ^ 53 := by have := abs_lt.mp bxa; omega
  have nya : ya.natAbs < 2 ^ 53 := by have := abs_lt.mp bya; omega
  have nxb : xb.natAbs < 2 ^ 53 := by have := abs_lt.mp bxb; omega
  have nyb : yb.natAbs < 2 ^ 53 := by have := abs_lt.mp byb; omega
  obtain ⟨sx1, sx2⟩ := Dbl.square_bound xb xa bxb bxa
  obtain ⟨sy1, sy2⟩ := Dbl.square_bound yb ya byb bya
  have i1 := Dbl.isInt_sub _ _ _ _ (Dbl.isInt_ofInt xb nxb) (Dbl.isInt_ofInt xa nxa) sx1
  have i2 := Dbl.isInt_sub _ _ _ _ (Dbl.isInt_ofInt yb nyb) (Dbl.isInt_ofInt ya nya) sy1
  have i3 := Dbl.isInt_pow_two _ _ i1 (by omega)
  have i4 := Dbl.isInt_pow_two _ _ i2 (by omega)
  have hsum : ((xb - xa) * (xb - xa) + (yb - ya) * (yb - ya)).natAbs < 2 ^ 53 := by
    have := Int.natAbs_add_le ((xb - xa) * (xb - xa)) ((yb - ya) * (yb - ya))
    omega
  have i5 := Dbl.isInt_add _ _ _ _ i3 i4 hsum
  have hnn : 0 ≤ (xb - xa) * (xb - xa) + (yb - ya) * (yb - ya) :=
    add_nonneg (mul_self_nonneg _) (mul_self_nonneg _)
  have key := Dbl.sqrt_lt _ _ i5 hnn
  unfold demoConnectionFn
  simp only [Dbl.math, Dbl.compare, DISTANCE_BETWEEN_VERTICES, hxa, hya, hxb, hyb]
  rw [key]
  apply decide_eq_decide.mpr
  have e : (xb - xa) * (xb - xa) + (yb - ya) * (yb - ya) = (xa - xb) ^ 2 + (ya - yb) ^ 2 := by
    ring
  rw [e]
  norm_num

/-! ## The demo's predicate on doubles -/

set_option maxRecDepth 100000 in
theorem demoScenario_eq : demoScenario = some graphDemoABC := rfl

theorem graphDemoABC_reachable : Reachable Dbl.mathZero graphDemoABC := by
  obtain ⟨g0, h0, _⟩ := Graph.new_spec demoHeap none (some demoFn)
  obtain ⟨g1, h1, _⟩ := Graph.addPoint_spec g0 0
  obtain ⟨g2, h2, _⟩ := Graph.addPoint_spec g1 1
  obtain ⟨g3, h3, _⟩ := Graph.addPoint_spec g2 5
  have hr3 : Reachable Dbl.mathZero g3 :=
    Reachable.addPoint g2 5 g3
      (Reachable.addPoint g1 1 g2
        (Reachable.addPoint g0 0 g1 (Reachable.new _ _ _ g0 h0) h1) h2) h3
  have hs : demoScenario = some g3 := by
    unfold demoScenario
    rw [h0]
    simp only
    rw [h1]
    simp only
    rw [h2]
    exact h3
  rw [demoScenario_eq] at hs
  rw [Option.some.inj hs]
  exact hr3

theorem demoHeap_integer (r : Ref) (h : r ∈ graphDemoABC.points) :
    ((graphDemoABC.heap r).x = Dbl.ofInt (100 * (r : Int)) ∧ |100 * (r : Int)| < 2 ^ 25) ∧
      ((graphDemoABC.heap r).y = Dbl.ofInt 0 ∧ |(0 : Int)| < 2 ^ 25) := by
  have hr : r = 0 ∨ r = 1 ∨ r = 5 := by
    simpa [graphDemoABC] using h
  refine ⟨⟨?_, ?_⟩, rfl, by norm_num⟩
  · show Dbl.lit (100 * r) = Dbl.ofInt (100 * (r : Int))
    unfold Dbl.lit
    push_cast
    rfl
  · rcases hr with rfl | rfl | rfl <;> norm_num

set_option maxRecDepth 100000 in
theorem graphNear_eq : Graph.new nearHeap (some [0, 1]) (some demoFn) = some graphNear := rfl

set_option maxRecDepth 100000 in
theorem nearHeap_values :
    (nearHeap 0).x = { mant := 3602879701896397, expo := -55 } ∧
      (nearHeap 1).x = { mant := 7040392854975283, expo := -45 } ∧
      (nearHeap 0).y = { mant := 0, expo := 0 } ∧ (nearHeap 1).y = { mant := 0, expo := 0 } := by
  decide

set_option maxRecDepth 100000 in
theorem nearHeap_difference :
    Dbl.sub (nearHeap 0).x (nearHeap 1).x = Dbl.ofInt (-200) ∧
      Dbl.sub (nearHeap 0).y (nearHeap 1).y = Dbl.ofInt 0 ∧
      Dbl.sqrt (Dbl.add (Dbl.pow (Dbl.ofInt (-200)) (Dbl.lit 2))
        (Dbl.pow (Dbl.ofInt 0) (Dbl.lit 2))) = Dbl.lit 200 ∧
      Dbl.lt (Dbl.lit 200) (Dbl.lit 200) = false := by
  decide

theorem nearHeap_exact :
    ((nearHeap 1).x.toRat - (nearHeap 0).x.toRat) ^ 2 +
        ((nearHeap 1).y.toRat - (nearHeap 0).y.toRat) ^ 2 < 200 ^ 2 := by
  obtain ⟨h0, h1, h2, h3⟩ := nearHeap_values
  rw [h0, h1, h2, h3]
  norm_num [Dbl.toRat]

set_option maxRecDepth 100000 in
theorem farPoint_move : Point.move Dbl.mathZero farPoint = farPoint := rfl

set_option maxRecDepth 100000 in
theorem farPoint_x : farPoint.x = { mant := 1, expo := 53 } := by decide

theorem Dbl.lit_eq_ofInt (n : Nat) : Dbl.lit n = Dbl.ofInt (n : Int) := rfl

/-- C12: counterexample. The graph `new Graph({ points: [p, q], connectionFn })`
with the demo's predicate, `p` at `(0.1, 0)` and `q` at `(200.1, 0)`: the
coordinates are the doubles `3602879701896397 * 2^-55` and
`7040392854975283 * 2^-45`, their difference `x_p - x_q` is computed as
exactly `-200`, the distance as exactly `200`, and `200 < 200` is false, so
`connections[1][0]` is `false`; yet on the coordinates the points hold,
`(x_1 - x_0)^2 + (y_1 - y_0)^2 < 200^2`. -/
theorem C12_rounded_difference_counterexample :
    Graph.new nearHeap (some [0, 1]) (some demoFn) = some graphNear ∧
      Reachable Dbl.mathZero graphNear ∧
      graphNear.connectionFn = demoConnectionFn Dbl.mathZero Dbl.compare ∧
      graphNear.points = [0, 1] ∧
      (graphNear.heap 0).x = { mant := 3602879701896397, expo := -55 } ∧
      (graphNear.heap 1).x = { mant := 7040392854975283, expo := -45 } ∧
      Dbl.sub (graphNear.heap 0).x (graphNear.heap 1).x = Dbl.ofInt (-200) ∧
      Matrix.entry graphNear.connections 1 0 = some false ∧
      ((graphNear.heap 1).x.toRat - (graphNear.heap 0).x.toRat) ^ 2 +
          ((graphNear.heap 1).y.toRat - (graphNear.heap 0).y.toRat) ^ 2 < 200 ^ 2 :=
  ⟨graphNear_eq, Reachable.new _ _ _ _ graphNear_eq, rfl, rfl, nearHeap_values.1,
    nearHeap_values.2.1, nearHeap_difference.1, by decide, nearHeap_exact⟩

/-- C12: in every reachable state of a graph built with the demo's predicate,
in the arithmetic of doubles, the slot `connections[i][j]`,
`j < i < points.length`, holds the value of
`Math.sqrt(Math.pow(x_j - x_i, 2) + Math.pow(y_j - y_i, 2)) < 200` as computed
on the current positions, every operation rounded; when the coordinates of the
points are integers of magnitude below `2^25`, no operation rounds and the slot
holds `true` exactly when `(x_i - x_j)^2 + (y_i - y_j)^2 < 200^2`; and after
adding A = (0,0), B = (100,0), C = (500,0) in that order, the slot of the pair
A-B holds `true`, those of A-C and B-C hold `false`. -/
theorem C12_distance_threshold (cos sin : Dbl → Dbl) (g : Graph Dbl)
    (h : Reachable (Dbl.math cos sin) g)
    (hfn : g.connectionFn = demoConnectionFn (Dbl.math cos sin) Dbl.compare) :
    (∀ (i j : Nat) (hj : j < i) (hi : i < g.points.length),
        Matrix.entry g.connections i j =
          some (Dbl.lt
            (Dbl.sqrt (Dbl.add
              (Dbl.pow (Dbl.sub (g.heap (g.points.get ⟨j, Nat.lt_trans hj hi⟩)).x
                (g.heap (g.points.get ⟨i, hi⟩)).x) (Dbl.lit 2))
              (Dbl.pow (Dbl.sub (g.heap (g.points.get ⟨j, Nat.lt_trans hj hi⟩)).y
                (g.heap (g.points.get ⟨i, hi⟩)).y) (Dbl.lit 2))))
            (Dbl.lit 200))) ∧
      (∀ X Y : Ref → Int,
        (∀ r ∈ g.points, ((g.heap r).x = Dbl.ofInt (X r) ∧ |X r| < 2 ^ 25) ∧
          ((g.heap r).y = Dbl.ofInt (Y r) ∧ |Y r| < 2 ^ 25)) →
        ∀ (i j : Nat) (hj : j < i) (hi : i < g.points.length),
          Matrix.entry g.connections i j =
              some (decide ((X (g.points.get ⟨i, hi⟩) - X (g.points.get ⟨j, Nat.lt_trans hj hi⟩)) ^ 2 +
                (Y (g.points.get ⟨i, hi⟩) - Y (g.points.get ⟨j, Nat.lt_trans hj hi⟩)) ^ 2
                  < 200 ^ 2)) ∧
            (Matrix.entry g.connections i j = some true ↔
              (X (g.points.get ⟨i, hi⟩) - X (g.points.get ⟨j, Nat.lt_trans hj hi⟩)) ^ 2 +
                (Y (g.points.get ⟨i, hi⟩) - Y (g.points.get ⟨j, Nat.lt_trans hj hi⟩)) ^ 2
                  < 200 ^ 2)) ∧
      (demoScenario = some graphDemoABC ∧ graphDemoABC.points = [0, 1, 5] ∧
        (graphDemoABC.heap 0).x.toRat = 0 ∧ (graphDemoABC.heap 1).x.toRat = 100 ∧
        (graphDemoABC.heap 5).x.toRat = 500 ∧
        Matrix.entry graphDemoABC.connections 1 0 = some true ∧
        Matrix.entry graphDemoABC.connections 2 0 = some false ∧
        Matrix.entry graphDemoABC.connections 2 1 = some false) := by
  have hc := h.canonical
  have hentry : ∀ (i j : Nat) (hj : j < i) (hi : i < g.points.length),
      Matrix.entry g.connections i j =
        some (demoConnectionFn (Dbl.math cos sin) Dbl.compare g.heap
          (g.points.get ⟨i, hi⟩) (g.points.get ⟨j, Nat.lt_trans hj hi⟩)) := by
    intro i j hj hi
    have hcnd : 1 < g.points.length ∧ i < g.points.length ∧ j ≤ i :=
      ⟨by omega, hi, Nat.le_of_lt hj⟩
    have hne : i ≠ j := by omega
    rw [hc.2 i j]
    unfold Graph.expected
    rw [if_pos hcnd, if_pos hne, Graph.lower_get g i j (Nat.le_of_lt hj) hi, hfn]
  refine ⟨?_, ?_, ?_⟩
  · intro i j hj hi
    rw [hentry i j hj hi]
    rfl
  · intro X Y hXY i j hj hi
    obtain ⟨⟨hxi, bxi⟩, hyi, byi⟩ := hXY _ (List.get_mem g.points i hi)
    obtain ⟨⟨hxj, bxj⟩, hyj, byj⟩ := hXY _ (List.get_mem g.points j (Nat.lt_trans hj hi))
    have he := hentry i j hj hi
    rw [demoConnectionFn_ofInt cos sin g.heap _ _ _ _ _ _ hxi hyi hxj hyj bxi byi bxj byj] at he
    refine ⟨he, ?_⟩
    rw [he]
    simp
  · refine ⟨demoScenario_eq, rfl, ?_, ?_, ?_, by decide, by decide, by decide⟩
    · show (Dbl.lit (100 * 0)).toRat = 0
      rw [Dbl.lit_toRat _ (by norm_num)]
      norm_num
    · show (Dbl.lit (100 * 1)).toRat = 100
      rw [Dbl.lit_toRat _ (by norm_num)]
      norm_num
    · show (Dbl.lit (100 * 5)).toRat = 500
      rw [Dbl.lit_toRat _ (by norm_num)]
      norm_num

/-- C12 at the graph of the scenario, whose points have integer coordinates. -/
theorem C12_distance_threshold_witness :
    Reachable Dbl.mathZero graphDemoABC ∧
      graphDemoABC.connectionFn =
        demoConnectionFn Dbl.mathZero Dbl.compare ∧
      (∀ r ∈ graphDemoABC.points,
        ((graphDemoABC.heap r).x = Dbl.ofInt (100 * (r : Int)) ∧ |100 * (r : Int)| < 2 ^ 25) ∧
          ((graphDemoABC.heap r).y = Dbl.ofInt 0 ∧ |(0 : Int)| < 2 ^ 25)) ∧
      ((∀ (i j : Nat) (hj : j < i) (hi : i < graphDemoABC.points.length),
          Matrix.entry graphDemoABC.connections i j =
            some (Dbl.lt
              (Dbl.sqrt (Dbl.add
                (Dbl.pow (Dbl.sub
                  (graphDemoABC.heap (graphDemoABC.points.get ⟨j, Nat.lt_trans hj hi⟩)).x
                  (graphDemoABC.heap (graphDemoABC.points.get ⟨i, hi⟩)).x) (Dbl.lit 2))
                (Dbl.pow (Dbl.sub
                  (graphDemoABC.heap (graphDemoABC.points.get ⟨j, Nat.lt_trans hj hi⟩)).y
                  (graphDemoABC.heap (graphDemoABC.points.get ⟨i, hi⟩)).y) (Dbl.lit 2))))
              (Dbl.lit 200))) ∧
        (∀ X Y : Ref → Int,
          (∀ r ∈ graphDemoABC.points,
            ((graphDemoABC.heap r).x = Dbl.ofInt (X r) ∧ |X r| < 2 ^ 25) ∧
              ((graphDemoABC.heap r).y = Dbl.ofInt (Y r) ∧ |Y r| < 2 ^ 25)) →
          ∀ (i j : Nat) (hj : j < i) (hi : i < graphDemoABC.points.length),
            Matrix.entry graphDemoABC.connections i j =
                some (decide ((X (graphDemoABC.points.get ⟨i, hi⟩) -
                    X (graphDemoABC.points.get ⟨j, Nat.lt_trans hj hi⟩)) ^ 2 +
                  (Y (graphDemoABC.points.get ⟨i, hi⟩) -
                    Y (graphDemoABC.points.get ⟨j, Nat.lt_trans hj hi⟩)) ^ 2 < 200 ^ 2)) ∧
              (Matrix.entry graphDemoABC.connections i j = some true ↔
                (X (graphDemoABC.points.get ⟨i, hi⟩) -
                    X (graphDemoABC.points.get ⟨j, Nat.lt_trans hj hi⟩)) ^ 2 +
                  (Y (graphDemoABC.points.get ⟨i, hi⟩) -
                    Y (graphDemoABC.points.get ⟨j, Nat.lt_trans hj hi⟩)) ^ 2 < 200 ^ 2)) ∧
        (demoScenario = some graphDemoABC ∧ graphDemoABC.points = [0, 1, 5] ∧
          (graphDemoABC.heap 0).x.toRat = 0 ∧ (graphDemoABC.heap 1).x.toRat = 100 ∧
          (graphDemoABC.heap 5).x.toRat = 500 ∧
          Matrix.entry graphDemoABC.connections 1 0 = some true ∧
          Matrix.entry graphDemoABC.connections 2 0 = some false ∧
          Matrix.entry graphDemoABC.connections 2 1 = some false)) :=
  ⟨graphDemoABC_reachable, rfl, demoHeap_integer,
    C12_distance_threshold Dbl.cosZero Dbl.sinZero graphDemoABC
      graphDemoABC_reachable rfl⟩

/-- C13: counterexample. A point at `(2^53, 0)` with heading 0, where
`Math.cos` is 1 and `Math.sin` is 0: `2^53 + 1` is not a double and rounds
back to `2^53`, so `move()` leaves the point where it was and the
displacement has magnitude 0, not 1. -/
theorem C13_no_displacement_counterexample :
    farPoint.x.toRat = 2 ^ 53 ∧ farPoint.angle = Dbl.lit 0 ∧
      Dbl.mathZero.cos farPoint.angle = Dbl.lit 1 ∧
      Dbl.mathZero.sin farPoint.angle = Dbl.lit 0 ∧
      (Dbl.lit 1).toRat = 1 ∧ (Dbl.lit 0).toRat = 0 ∧
      Point.move Dbl.mathZero farPoint = farPoint ∧
      ((Point.move Dbl.mathZero farPoint).x.toRat - farPoint.x.toRat) ^ 2 +
          ((Point.move Dbl.mathZero farPoint).y.toRat - farPoint.y.toRat) ^ 2 = 0 := by
  refine ⟨?_, rfl, rfl, rfl, ?_, ?_, farPoint_move, ?_⟩
  · rw [farPoint_x]
    norm_num [Dbl.toRat]
  · rw [Dbl.lit_toRat _ (by norm_num)]
    norm_num
  · rw [Dbl.lit_toRat _ (by norm_num)]
    norm_num
  · rw [farPoint_move]
    norm_num

/-- C13: `Point.move()` sets the position to `(x + cos(angle), y + sin(angle))`,
each sum rounded by the arithmetic, and leaves `angle` and `velocity` as they
are, and the new position does not depend on `velocity`; in the arithmetic of
doubles, for a point of heading 0 (cosine 1, sine 0) whose coordinates are
integers `n` and `m` with `|n| < 2^53 - 1` and `|m| < 2^53`, the sums are exact:
the point is at `(n + 1, m)` after one `move()` and the displacement has
magnitude 1; in particular a point at `(0, 0)` with heading 0 is at `(1, 0)`
after one `move()`. -/
theorem C13_point_move {α : Type} (M : JsMath α) (p : Point α) (cos sin : Dbl → Dbl)
    (hcos : cos (Dbl.lit 0) = Dbl.lit 1) (hsin : sin (Dbl.lit 0) = Dbl.lit 0) :
    ((p.move M).x = M.add p.x (M.cos p.angle) ∧
        (p.move M).y = M.add p.y (M.sin p.angle) ∧
        (p.move M).angle = p.angle ∧ (p.move M).velocity = p.velocity ∧
        (∀ v, (Point.move M { p with velocity := v }).x = (p.move M).x ∧
          (Point.move M { p with velocity := v }).y = (p.move M).y)) ∧
      (∀ (n m : Int) (v : Dbl), |n| < 2 ^ 53 - 1 → |m| < 2 ^ 53 →
        (Point.move (Dbl.math cos sin)
            { x := Dbl.ofInt n, y := Dbl.ofInt m, angle := Dbl.lit 0, velocity := v }).x.toRat =
            (n : ℚ) + 1 ∧
          (Point.move (Dbl.math cos sin)
            { x := Dbl.ofInt n, y := Dbl.ofInt m, angle := Dbl.lit 0, velocity := v }).y.toRat =
            (m : ℚ) ∧
          (Dbl.ofInt n).toRat = (n : ℚ) ∧ (Dbl.ofInt m).toRat = (m : ℚ) ∧
          ((Point.move (Dbl.math cos sin)
              { x := Dbl.ofInt n, y := Dbl.ofInt m, angle := Dbl.lit 0, velocity := v }).x.toRat -
                (Dbl.ofInt n).toRat) ^ 2 +
            ((Point.move (Dbl.math cos sin)
              { x := Dbl.ofInt n, y := Dbl.ofInt m, angle := Dbl.lit 0, velocity := v }).y.toRat -
                (Dbl.ofInt m).toRat) ^ 2 = 1) ∧
      (∀ v, Point.move (Dbl.math cos sin)
          { x := Dbl.lit 0, y := Dbl.lit 0, angle := Dbl.lit 0, velocity := v } =
        { x := Dbl.lit 1, y := Dbl.lit 0, angle := Dbl.lit 0, velocity := v }) := by
  refine ⟨⟨rfl, rfl, rfl, rfl, fun _ => ⟨rfl, rfl⟩⟩, ?_, ?_⟩
  · intro n m v hn hm
    have bn := abs_lt.mp hn
    have bm := abs_lt.mp hm
    have nn : n.natAbs < 2 ^ 53 := by omega
    have nm : m.natAbs < 2 ^ 53 := by omega
    have hx : (Point.move (Dbl.math cos sin)
        { x := Dbl.ofInt n, y := Dbl.ofInt m, angle := Dbl.lit 0, velocity := v }).x.toRat =
        (n : ℚ) + 1 := by
      show (Dbl.add (Dbl.ofInt n) (cos (Dbl.lit 0))).toRat = (n : ℚ) + 1
      rw [hcos, Dbl.lit_eq_ofInt, Dbl.add_ofInt n _ nn (by decide) (by push_cast; omega)]
      norm_num
    have hy : (Point.move (Dbl.math cos sin)
        { x := Dbl.ofInt n, y := Dbl.ofInt m, angle := Dbl.lit 0, velocity := v }).y.toRat =
        (m : ℚ) := by
      show (Dbl.add (Dbl.ofInt m) (sin (Dbl.lit 0))).toRat = (m : ℚ)
      rw [hsin, Dbl.lit_eq_ofInt, Dbl.add_ofInt m _ nm (by decide) (by push_cast; omega)]
      norm_num
    refine ⟨hx, hy, Dbl.ofInt_toRat n nn, Dbl.ofInt_toRat m nm, ?_⟩
    rw [hx, hy, Dbl.ofInt_toRat n nn, Dbl.ofInt_toRat m nm]
    norm_num
  · intro v
    show (Point.mk (Dbl.add (Dbl.lit 0) (cos (Dbl.lit 0))) (Dbl.add (Dbl.lit 0) (sin (Dbl.lit 0)))
      (Dbl.lit 0) v : Point Dbl) = _
    rw [hcos, hsin]
    rfl

/-- C13 at the point A of the scenario, `(0, 0)` with heading 0. -/
theorem C13_point_move_witness :
    Dbl.cosZero (Dbl.lit 0) = Dbl.lit 1 ∧ Dbl.sinZero (Dbl.lit 0) = Dbl.lit 0 ∧
      (((Point.move Dbl.mathZero (demoHeap 0)).x =
            Dbl.mathZero.add (demoHeap 0).x (Dbl.mathZero.cos (demoHeap 0).angle) ∧
          (Point.move Dbl.mathZero (demoHeap 0)).y =
            Dbl.mathZero.add (demoHeap 0).y (Dbl.mathZero.sin (demoHeap 0).angle) ∧
          (Point.move Dbl.mathZero (demoHeap 0)).angle = (demoHeap 0).angle ∧
          (Point.move Dbl.mathZero (demoHeap 0)).velocity = (demoHeap 0).velocity ∧
          (∀ v, (Point.move Dbl.mathZero { demoHeap 0 with velocity := v }).x =
              (Point.move Dbl.mathZero (demoHeap 0)).x ∧
            (Point.move Dbl.mathZero { demoHeap 0 with velocity := v }).y =
              (Point.move Dbl.mathZero (demoHeap 0)).y)) ∧
        (∀ (n m : Int) (v : Dbl), |n| < 2 ^ 53 - 1 → |m| < 2 ^ 53 →
          (Point.move (Dbl.math Dbl.cosZero Dbl.sinZero)
              { x := Dbl.ofInt n, y := Dbl.ofInt m, angle := Dbl.lit 0, velocity := v }).x.toRat =
              (n : ℚ) + 1 ∧
            (Point.move (Dbl.math Dbl.cosZero Dbl.sinZero)
              { x := Dbl.ofInt n, y := Dbl.ofInt m, angle := Dbl.lit 0, velocity := v }).y.toRat =
              (m : ℚ) ∧
            (Dbl.ofInt n).toRat = (n : ℚ) ∧ (Dbl.ofInt m).toRat = (m : ℚ) ∧
            ((Point.move (Dbl.math Dbl.cosZero Dbl.sinZero)
                { x := Dbl.ofInt n, y := Dbl.ofInt m, angle := Dbl.lit 0,
                  velocity := v }).x.toRat - (Dbl.ofInt n).toRat) ^ 2 +
              ((Point.move (Dbl.math Dbl.cosZero Dbl.sinZero)
                { x := Dbl.ofInt n, y := Dbl.ofInt m, angle := Dbl.lit 0,
                  velocity := v }).y.toRat - (Dbl.ofInt m).toRat) ^ 2 = 1) ∧
        (∀ v, Point.move (Dbl.math Dbl.cosZero Dbl.sinZero)
            { x := Dbl.lit 0, y := Dbl.lit 0, angle := Dbl.lit 0, velocity := v } =
          { x := Dbl.lit 1, y := Dbl.lit 0, angle := Dbl.lit 0, velocity := v })) :=
  ⟨rfl, rfl, C13_point_move Dbl.mathZero (demoHeap 0) Dbl.cosZero Dbl.sinZero rfl rfl⟩

end ParticlesCanvas
